import Mathlib

/-!
gobase: the Redis lease lock (`utils/redis/lock.go`)

A shallow embedding of `redisLock` with its operations `NewDistributedLock`,
`Lock`, `Unlock` and `renew`, over an explicit model of the key-value store.

Conventions of the embedding.

* The store is passed explicitly: every operation takes the store as it is at
  the moment of its single round trip and returns the store after it.
* The client `l.rdb` (an interface value, `redis.Cmdable`) is passed to each
  call as the argument `rdb`, so that its behaviour may differ from one round
  trip to the next (a transport fault now, a good answer later).
* `uuid.New().String()` is passed to `Lock` as the argument `uuid`.
* The mutex `l.mu` serialises `Lock` and `Unlock` of one handle; the embedding
  is sequential, one call at a time per handle.
* The two channels are one-shot (made, then closed, never sent on), so a
  channel is modelled by its state. The goroutines running `l.watchdog()` are
  counted in the ghost field `watchdogs`.
* `Unlock` first closes the stop channel and waits for the watchdog, and only
  then makes its round trip. Renewals the watchdog still performs while
  `Unlock` waits read `key`, `value` and `expiration` only, which `Unlock`
  never writes; they are steps of their own that precede the `Unlock` step.
* Time is not modelled. The expiry of a lease and the writes of other clients
  show as a different store handed to the next call; the ticker of the watchdog
  shows as the environment running `renew`.
* The store and its client library are not part of the repository. The store
  commands are modelled from the interface table of the specification, and the
  two Lua scripts are translated from their text in `lock.go`.
-/

namespace Gobase.Redis

/-! ## Go values -/

/-- A `time.Duration`: a number of nanoseconds. -/
abbrev Duration := Int

/-- The constant `time.Millisecond`. -/
def Millisecond : Duration := 1000000

/-- A Go `error` value, as far as `lock.go` observes it: its text and whether
`errors.Is(err, redis.Nil)` holds for it. -/
structure GoError where
  text : String
  isNil : Bool
deriving DecidableEq, Repr

/-- The function `errors.New`. -/
def errors_New (text : String) : GoError := { text := text, isNil := false }

/-- The sentinel `redis.Nil`, the error that stands for a nil reply. -/
def redis_Nil : GoError := { text := "redis: nil", isNil := true }

/-- A non-nil `interface{}` value carried by a command result: an `int64`, or a
value of another dynamic type. -/
inductive Reply where
  | int (n : Int)
  | other (v : String)
deriving DecidableEq, Repr

/-- What `(*BoolCmd).Result()` returns: `(val, err)`. -/
structure BoolCmd where
  val : Bool
  err : Option GoError
deriving DecidableEq, Repr

/-- What `(*Cmd).Result()` returns: `(val, err)`, with `val` possibly nil. -/
structure Cmd where
  val : Option Reply
  err : Option GoError
deriving DecidableEq, Repr

/-- How a call ends: it returns, it panics, or it blocks for ever. -/
inductive Outcome (α : Type) where
  | returned (a : α)
  | panicked
  | blocked
deriving DecidableEq, Repr

/-! ## The store -/

/-- A lease record: the value stored against a key and its time-to-live. -/
structure Entry where
  value : String
  ttl : Duration
deriving DecidableEq, Repr

/-- The contents of the key-value store. -/
abbrev Store := String → Option Entry

/-- The store with `key` bound to `e`. -/
def Store.set (s : Store) (key : String) (e : Entry) : Store :=
  fun k => if k = key then some e else s k

/-- The store with `key` removed. -/
def Store.erase (s : Store) (key : String) : Store :=
  fun k => if k = key then none else s k

/-- The empty store. -/
def Store.empty : Store := fun _ => none

/-- An argument of a script call (`ARGV`): a string or an `int64`. -/
inductive Arg where
  | str (v : String)
  | int (n : Int)
deriving DecidableEq, Repr

/-- The two Lua scripts of `lock.go`: the one built in `Unlock` and the one
built in `renew`. -/
inductive Script where
  | unlockScript
  | renewScript
deriving DecidableEq, Repr

/-- The part of `redis.Cmdable` that `lock.go` calls: `SetNX`, and the script
call made by `script.Run`. Each takes the store before the call and gives the
result of the call with the store after it. -/
structure Cmdable where
  SetNX : String → String → Duration → Store → BoolCmd × Store
  Run : Script → List String → List Arg → Store → Cmd × Store

/-- Modelled from the spec: the store command `GET` (the store is an external
collaborator; the value stored against the key, if any). -/
def GET (s : Store) (key : String) : Option String :=
  (s key).map Entry.value

/-- Modelled from the spec: the store command `DEL` (removes the key and
replies with the number of keys removed). -/
def DEL (s : Store) (key : String) : Int × Store :=
  match s key with
  | some _ => (1, s.erase key)
  | none => (0, s)

/-- Modelled from the spec: the store command `PEXPIRE` behind
compare-and-extend (sets the time-to-live of an existing key to `ms`
milliseconds and replies 1; replies 0 when the key is absent). As the store
documents it, a time-to-live that is not positive removes the key. -/
def PEXPIRE (s : Store) (key : String) (ms : Int) : Int × Store :=
  match s key with
  | some e =>
    if ms ≤ 0 then (1, s.erase key)
    else (1, s.set key { e with ttl := ms * Millisecond })
  | none => (0, s)

/-- Modelled from the spec: the store primitive `SET key=token NX
EX=leaseDuration` behind `SetNX` (create only if absent, with expiry; atomic).
The reply is true exactly when the key was created. -/
def SETNX (s : Store) (key value : String) (expiration : Duration) : Bool × Store :=
  match s key with
  | some _ => (false, s)
  | none => (true, s.set key { value := value, ttl := expiration })

/-- The Lua script of `Unlock`:
`if redis.call("GET", KEYS[1]) == ARGV[1] then return redis.call("DEL", KEYS[1])
else return 0 end`. -/
def evalUnlockScript (KEYS1 ARGV1 : String) (s : Store) : Int × Store :=
  if GET s KEYS1 = some ARGV1 then DEL s KEYS1 else (0, s)

/-- The Lua script of `renew`:
`if redis.call("GET", KEYS[1]) == ARGV[1] then
return redis.call("PEXPIRE", KEYS[1], ARGV[2]) else return 0 end`. -/
def evalRenewScript (KEYS1 ARGV1 : String) (ARGV2 : Int) (s : Store) : Int × Store :=
  if GET s KEYS1 = some ARGV1 then PEXPIRE s KEYS1 ARGV2 else (0, s)

/-- A client whose round trips all reach the store and are answered: each
command runs atomically on the store and its reply comes back without error. -/
def redisServer : Cmdable where
  SetNX := fun key value expiration s =>
    let r := SETNX s key value expiration
    ({ val := r.1, err := none }, r.2)
  Run := fun script keys args s =>
    match script, keys, args with
    | .unlockScript, [k], [.str v] =>
      let r := evalUnlockScript k v s
      ({ val := some (.int r.1), err := none }, r.2)
    | .renewScript, [k], [.str v, .int ms] =>
      let r := evalRenewScript k v ms s
      ({ val := some (.int r.1), err := none }, r.2)
    | _, _, _ =>
      ({ val := none, err := some (errors_New "ERR Error running script") }, s)

/-- A client none of whose round trips reaches the store: every call fails with
the error `e` and the store stays as it was. -/
def unreachableServer (e : GoError) : Cmdable where
  SetNX := fun _ _ _ s => ({ val := false, err := some e }, s)
  Run := fun _ _ _ s => ({ val := none, err := some e }, s)

/-! ## The lock handle -/

/-- The state of a `chan struct{}` that is only ever made and closed. -/
inductive Chan where
  | nil
  | made
  | closed
deriving DecidableEq, Repr

/-- The struct `redisLock`. The client `rdb` is passed to each call and the
mutex `mu` is implicit in the sequential embedding; `watchdogs` is a ghost
field, the number of goroutines that run `l.watchdog()` and have not
returned. -/
structure redisLock where
  key : String
  value : String
  expiration : Duration
  held : Bool
  watchdogStop : Chan
  watchdogDone : Chan
  watchdogs : Nat
deriving DecidableEq, Repr

/-- The constructor `NewDistributedLock` (without its argument `rdb`). -/
def NewDistributedLock (key : String) (expiration : Duration) : redisLock :=
  { key := "lock:" ++ key
    value := ""
    expiration := expiration
    held := false
    watchdogStop := .nil
    watchdogDone := .nil
    watchdogs := 0 }

/-- The method `Lock`: the returned pair `(bool, error)`, the handle and the
store after the call. -/
def Lock (l : redisLock) (uuid : String) (rdb : Cmdable) (s : Store) :
    (Bool × Option GoError) × redisLock × Store :=
  if l.held then
    ((true, none), l, s)
  else
    let l1 := { l with value := uuid }
    let r := rdb.SetNX l1.key l1.value l1.expiration s
    match r.1.err with
    | some err => ((false, some err), l1, r.2)
    | none =>
      if !r.1.val then
        ((false, none), l1, r.2)
      else
        ((true, none),
          { l1 with
            held := true
            watchdogStop := .made
            watchdogDone := .made
            watchdogs := l1.watchdogs + 1 },
          r.2)

/-- The `select` of `Unlock`: when the stop channel is closed already the
receive case is taken and nothing is done; otherwise the default case closes
it, and closing a nil channel panics (no result). -/
def closeStop (l : redisLock) : Option redisLock :=
  match l.watchdogStop with
  | .closed => some l
  | .made => some { l with watchdogStop := .closed }
  | .nil => none

/-- The receive `<-l.watchdogDone` of `Unlock`, reached with the stop channel
closed. It goes through when the done channel is closed, or when it is made and
a watchdog is running, which then returns on the closed stop channel and closes
the done channel. A done channel that is nil, or made with no watchdog left to
close it, blocks for ever (no result). -/
def awaitDone (l : redisLock) : Option redisLock :=
  match l.watchdogDone with
  | .closed => some l
  | .made =>
    if l.watchdogs = 0 then none
    else some { l with watchdogDone := .closed, watchdogs := l.watchdogs - 1 }
  | .nil => none

/-- The last part of `Unlock`, from `script.Run` on: the round trip of the
compare-and-delete script and what `Unlock` makes of its result. The type
assertion `res.(int64)` panics on a value that is not an `int64`. -/
def unlockRoundTrip (l : redisLock) (rdb : Cmdable) (s : Store) :
    Outcome (Option GoError) × redisLock × Store :=
  let r := rdb.Run .unlockScript [l.key] [.str l.value] s
  let res := r.1.val
  let err := r.1.err
  if err.any (fun e => !e.isNil) then
    (.returned err, l, r.2)
  else
    match res with
    | some (.int 0) =>
      (.returned (some (errors_New "lock value mismatch - possibly expired or stolen")),
        l, r.2)
    | some (.other _) => (.panicked, l, r.2)
    | _ => (.returned none, { l with held := false }, r.2)

/-- The method `Unlock`: how the call ends (with the returned `error`), the
handle and the store after the call. -/
def Unlock (l : redisLock) (rdb : Cmdable) (s : Store) :
    Outcome (Option GoError) × redisLock × Store :=
  if !l.held then
    (.returned (some (errors_New "lock not held by current session")), l, s)
  else
    match closeStop l with
    | none => (.panicked, l, s)
    | some l1 =>
      match awaitDone l1 with
      | none => (.blocked, l1, s)
      | some l2 => unlockRoundTrip l2 rdb s

/-- The method `renew`: one renewal attempt of the watchdog. The result of the
script call is discarded; only the store can change. -/
def renew (l : redisLock) (rdb : Cmdable) (s : Store) : Store :=
  let renewMs := Int.tdiv l.expiration Millisecond
  (rdb.Run .renewScript [l.key] [.str l.value, .int renewMs] s).2

/-- The watchdog of the handle can be stopped: the stop channel has been made,
and the done channel is closed already or will be closed by a running
watchdog. This is the state of the channels `Lock` sets up on an acquisition,
and the one `Unlock` leaves behind. -/
def redisLock.wired (l : redisLock) : Bool :=
  l.watchdogStop != .nil &&
    (l.watchdogDone == .closed || (l.watchdogDone == .made && decide (0 < l.watchdogs)))

/-- The invariant of a handle: while `held` is true its watchdog can be
stopped. -/
def redisLock.Valid (l : redisLock) : Prop :=
  l.held = true → l.wired = true

instance (l : redisLock) : Decidable l.Valid := by
  unfold redisLock.Valid
  infer_instance

/-- The handle once its watchdog has been stopped and has acknowledged: both
channels closed, and the watchdog that closed the done channel gone. -/
def redisLock.stopped (l : redisLock) : redisLock :=
  { l with
    watchdogStop := .closed
    watchdogDone := .closed
    watchdogs := if l.watchdogDone = .made then l.watchdogs - 1 else l.watchdogs }

/-! ## The watchdog -/

/-- What wakes the `select` of the watchdog loop: the closed stop channel, or a
tick of the ticker, after which `renew` makes its round trip through the client
as it behaves at that moment. -/
inductive Wake where
  | stop
  | tick (rdb : Cmdable)

/-- Whether the wake is the stop signal. -/
def Wake.isStop : Wake → Bool
  | .stop => true
  | .tick _ => false

/-- The loop `for { select { ... } }` of `watchdog`, run on the wakes it gets:
whether it has returned, and the store its renewals leave. With no wake left
it waits in its `select`. -/
def watchdogLoop (l : redisLock) : List Wake → Store → Bool × Store
  | [], s => (false, s)
  | .stop :: _, s => (true, s)
  | .tick rdb :: rest, s => watchdogLoop l rest (renew l rdb s)

/-- The deferred `close(l.watchdogDone)` of `watchdog`, which ends the
goroutine. Closing a channel that is nil or closed already panics (no
result). -/
def closeDone (l : redisLock) : Option redisLock :=
  match l.watchdogDone with
  | .made => some { l with watchdogDone := .closed, watchdogs := l.watchdogs - 1 }
  | _ => none

/-- The method `watchdog`, run on the wakes its `select` gets. The call
`time.NewTicker(interval)` panics when the interval is not positive; the
deferred close of the done channel runs when the method returns or panics. The
outcome `blocked` stands for a loop that waits for its next wake. -/
def watchdog (l : redisLock) (wakes : List Wake) (s : Store) :
    Outcome Unit × redisLock × Store :=
  let interval := Int.tdiv l.expiration 2
  if interval ≤ 0 then
    (.panicked, (closeDone l).getD l, s)
  else
    let r := watchdogLoop l wakes s
    if r.1 then
      match closeDone l with
      | some l1 => (.returned (), l1, r.2)
      | none => (.panicked, l, r.2)
    else
      (.blocked, l, r.2)

/-! ## Sequences of steps on one handle -/

/-- One step in the life of a handle: a call of `Lock` or of `Unlock`, a
renewal made by its watchdog, each with the behaviour of the client on that
round trip, or a change of the store made by others (another client, the
expiry of a key). -/
inductive Step where
  | lock (uuid : String) (rdb : Cmdable)
  | unlock (rdb : Cmdable)
  | renew (rdb : Cmdable)
  | env (s : Store)

/-- The handle and the store after one step. -/
def step (st : Step) (c : redisLock × Store) : redisLock × Store :=
  match st with
  | .lock uuid rdb => (Lock c.1 uuid rdb c.2).2
  | .unlock rdb => (Unlock c.1 rdb c.2).2
  | .renew rdb => (c.1, renew c.1 rdb c.2)
  | .env s => (c.1, s)

/-- The handle and the store after a sequence of steps. -/
def run (steps : List Step) (c : redisLock × Store) : redisLock × Store :=
  steps.foldl (fun c st => step st c) c

/-- The three states the channels and the watchdog of a handle are found in:
never acquired (channels nil, not held), acquired with the watchdog running
(channels made, held), and watchdog stopped and acknowledged (channels
closed). -/
def redisLock.Settled (l : redisLock) : Prop :=
  (l.watchdogStop = .nil ∧ l.watchdogDone = .nil ∧ l.watchdogs = 0 ∧ l.held = false) ∨
  (l.watchdogStop = .made ∧ l.watchdogDone = .made ∧ l.watchdogs = 1 ∧ l.held = true) ∨
  (l.watchdogStop = .closed ∧ l.watchdogDone = .closed ∧ l.watchdogs = 0)

/-! ## `Unlock` and the watchdog side by side

One call of `Unlock` and the watchdog goroutine of the acquisition run
concurrently, each one statement at a time, in any order the scheduler picks.
The mutex `mu` keeps every other call of `Lock` or `Unlock` on the handle out
while the call runs, so the channels of the handle are those of the
acquisition throughout. A statement that cannot run (a receive on a channel
that is not closed, a `select` with no case ready) has no successor; nor has
one that panics. -/

/-- The statement a call of `Unlock` is about to run. -/
inductive UnlockAt where
  | entry
  | select
  | receive
  | script
  | ended
deriving DecidableEq, Repr

/-- The statement the goroutine `l.watchdog()` is about to run: the call of
`time.NewTicker`, the `select` of its loop, the round trip of `renew`; `gone`
once it has returned and its deferred close of the done channel has run. -/
inductive WatchdogAt where
  | starting
  | waiting
  | renewing
  | gone
deriving DecidableEq, Repr

/-- What is recorded of an execution: the watchdog calls `l.renew()`, `renew`
issues its store call, `Unlock` issues its compare-and-delete store call. -/
inductive Event where
  | renewBegins
  | renewCall
  | deleteCall
deriving DecidableEq, Repr

/-- Whether the event belongs to a renewal. -/
def Event.isRenewal : Event → Bool
  | .renewBegins => true
  | .renewCall => true
  | .deleteCall => false

/-- The handle, the store, where the call of `Unlock` and the watchdog stand,
and the events recorded so far, the newest first. -/
structure Conc where
  lock : redisLock
  store : Store
  unlockAt : UnlockAt
  watchdogAt : WatchdogAt
  events : List Event

/-- What the scheduler lets happen next: the next statement of `Unlock` (with
the behaviour of the client, should the statement be the store call); the
watchdog making its ticker; the watchdog taking the case `<-ticker.C` and
calling `renew`; the store call of `renew`; the watchdog taking the case
`<-l.watchdogStop` and returning; a change of the store made by others. -/
inductive Move where
  | unlock (rdb : Cmdable)
  | start
  | tick
  | renewTrip (rdb : Cmdable)
  | stop
  | env (s : Store)

/-- The next statement of `Unlock`, in the order of the source: the test of
`held`, the `select` on the stop channel, the receive on the done channel
(ready only when that channel is closed), the store call and what follows
it. -/
def moveUnlock (rdb : Cmdable) (c : Conc) : Option Conc :=
  match c.unlockAt with
  | .entry =>
    if !c.lock.held then some { c with unlockAt := .ended }
    else some { c with unlockAt := .select }
  | .select =>
    match closeStop c.lock with
    | some l1 => some { c with lock := l1, unlockAt := .receive }
    | none => none
  | .receive =>
    if c.lock.watchdogDone = .closed then some { c with unlockAt := .script }
    else none
  | .script =>
    let r := unlockRoundTrip c.lock rdb c.store
    some { c with
      lock := r.2.1
      store := r.2.2
      unlockAt := .ended
      events := .deleteCall :: c.events }
  | .ended => none

/-- One move. The watchdog closes the done channel when it returns, and it
returns from its loop only through the case `<-l.watchdogStop`, which is ready
only when the stop channel is closed; when `time.NewTicker` panics on an
interval that is not positive the deferred close runs as well. -/
def move (m : Move) (c : Conc) : Option Conc :=
  match m with
  | .unlock rdb => moveUnlock rdb c
  | .start =>
    if c.watchdogAt = .starting then
      if Int.tdiv c.lock.expiration 2 ≤ 0 then
        some { c with lock := (closeDone c.lock).getD c.lock, watchdogAt := .gone }
      else some { c with watchdogAt := .waiting }
    else none
  | .tick =>
    if c.watchdogAt = .waiting then
      some { c with watchdogAt := .renewing, events := .renewBegins :: c.events }
    else none
  | .renewTrip rdb =>
    if c.watchdogAt = .renewing then
      some { c with
        store := renew c.lock rdb c.store
        watchdogAt := .waiting
        events := .renewCall :: c.events }
    else none
  | .stop =>
    if c.watchdogAt = .waiting ∧ c.lock.watchdogStop = .closed then
      match closeDone c.lock with
      | some l1 => some { c with lock := l1, watchdogAt := .gone }
      | none => none
    else none
  | .env s => some { c with store := s }

/-- A sequence of moves, in order; no result when one of them cannot be
made. -/
def exec : List Move → Conc → Option Conc
  | [], c => some c
  | m :: rest, c =>
    match move m c with
    | some c1 => exec rest c1
    | none => none

/-- Whether some event of a renewal was recorded after the store call of
`Unlock` (the list has the newest event first). -/
def renewAfterDelete : List Event → Bool
  | [] => false
  | e :: older => (e.isRenewal && older.contains .deleteCall) || renewAfterDelete older

/-- What holds of every state of an execution: the done channel is closed only
once the watchdog has gone; `Unlock` stands before its store call, or has
made it, only with the done channel closed; no event of a renewal follows the
store call of `Unlock`. -/
def Conc.Inv (c : Conc) : Prop :=
  (c.lock.watchdogDone = .closed → c.watchdogAt = .gone) ∧
    (c.unlockAt = .script → c.lock.watchdogDone = .closed) ∧
    (Event.deleteCall ∈ c.events → c.lock.watchdogDone = .closed) ∧
    renewAfterDelete c.events = false

end Gobase.Redis

/-!
gobase: multiset operations on slices (`utils/arrayutil/arrayutil.go`)

Slices are lists. The element type has a decidable equality that is the `==`
of Go (so no NaN among the elements). A `map[T]int` is a function to the
integers: reading a missing key gives the zero value.
-/

namespace Gobase.Arrayutil

variable {T : Type} [DecidableEq T]

/-- A `map[T]int`, read with `counter[v]`. -/
abbrev Counter (T : Type) := T → Int

/-- The statement `counter[v]++`. -/
def Counter.incr (counter : Counter T) (v : T) : Counter T :=
  fun k => if k = v then counter k + 1 else counter k

/-- The statement `counter[v]--`. -/
def Counter.decr (counter : Counter T) (v : T) : Counter T :=
  fun k => if k = v then counter k - 1 else counter k

/-- The loop `for _, v := range b { counter[v]++ }` on a fresh map. -/
def countAll (b : List T) : Counter T :=
  b.foldl Counter.incr (fun _ => 0)

/-- The second loop of `DiffCount`, over what is left of `a`, with the map and
the result built so far. -/
def DiffCount.loop : List T → Counter T → List T → List T
  | [], _, result => result
  | v :: rest, counter, result =>
    if counter v > 0 then DiffCount.loop rest (counter.decr v) result
    else DiffCount.loop rest counter (result ++ [v])

/-- The function `DiffCount`. -/
def DiffCount (a b : List T) : List T :=
  DiffCount.loop a (countAll b) []

/-- The function `SymmetricDiffCount`. -/
def SymmetricDiffCount (a b : List T) : List T :=
  DiffCount a b ++ DiffCount b a

/-- The second loop of `IsSubsetCount`, over what is left of `a`. -/
def IsSubsetCount.loop : List T → Counter T → Bool
  | [], _ => true
  | v :: rest, counter =>
    if counter v ≤ 0 then false
    else IsSubsetCount.loop rest (counter.decr v)

/-- The function `IsSubsetCount`. -/
def IsSubsetCount (a b : List T) : Bool :=
  if a.length > b.length then false
  else IsSubsetCount.loop a (countAll b)

/-- The list `a` after each element of `b`, in turn, has cancelled the earliest
equal element still there. (Stated from the claim, to compare `DiffCount`
with.) -/
def cancelEarliest (a b : List T) : List T :=
  b.foldl (fun acc v => acc.erase v) a

/-- A `map[T]struct{}`, read with `_, ok := m[v]`. -/
abbrev GoSet (T : Type) := T → Bool

/-- The statement `m[v] = struct{}{}`. -/
def GoSet.add (m : GoSet T) (v : T) : GoSet T :=
  fun k => if k = v then true else m k

/-- The loop `for _, v := range b { m[v] = struct{}{} }` on a fresh map. -/
def setOf (b : List T) : GoSet T :=
  b.foldl GoSet.add (fun _ => false)

/-- The second loop of `DiffLogical`, over what is left of `a`, with the two
maps and the result built so far. -/
def DiffLogical.loop : List T → GoSet T → GoSet T → List T → List T
  | [], _, _, result => result
  | v :: rest, inB, seen, result =>
    if inB v then DiffLogical.loop rest inB seen result
    else if seen v then DiffLogical.loop rest inB seen result
    else DiffLogical.loop rest inB (seen.add v) (result ++ [v])

/-- The function `DiffLogical`. -/
def DiffLogical (a b : List T) : List T :=
  DiffLogical.loop a (setOf b) (fun _ => false) []

/-- The function `Diff`. -/
def Diff (a b : List T) : List T :=
  DiffLogical a b

/-- The function `SymmetricDiffLogical`. -/
def SymmetricDiffLogical (a b : List T) : List T :=
  DiffLogical a b ++ DiffLogical b a

/-- The function `SymmetricDiff`. -/
def SymmetricDiff (a b : List T) : List T :=
  SymmetricDiffLogical a b

/-- The second loop of `IsSubsetLogical`, over what is left of `a`. -/
def IsSubsetLogical.loop : List T → GoSet T → Bool
  | [], _ => true
  | v :: rest, m =>
    if !m v then false
    else IsSubsetLogical.loop rest m

/-- The function `IsSubsetLogical`. -/
def IsSubsetLogical (a b : List T) : Bool :=
  IsSubsetLogical.loop a (setOf b)

/-- The function `IsSubset`. -/
def IsSubset (a b : List T) : Bool :=
  IsSubsetLogical a b

/-- The distinct values of a list, each once, in the order of their first
occurrence. (Stated from the claim, to compare `DiffLogical` with.) -/
def firstOccurrences : List T → List T
  | [] => []
  | x :: xs => x :: (firstOccurrences xs).filter (fun y => y ≠ x)

/-- The value of `int(math.Ceil(float64(length) / float64(size)))` for a
positive `size`: the quotient rounded up. (The conversion and the division are
exact in `float64` for lengths below 2^53.) -/
def ceilDiv (length size : Nat) : Nat :=
  (length + size - 1) / size

/-- The loop `for i := 0; i < chunks; i += size` of `Chunk`, from index `i` on,
with the result built so far. The first argument bounds the number of
iterations; `chunks` of them are enough, since `i` starts at 0 and grows by
`size`, which is at least 1. -/
def Chunk.loop (arr : List T) (size chunks length : Nat) :
    Nat → Nat → List (List T) → List (List T)
  | 0, _, result => result
  | fuel + 1, i, result =>
    if i < chunks then
      let stop := if i + size > length then length else i + size
      Chunk.loop arr size chunks length fuel (i + size)
        (result ++ [(arr.drop i).take (stop - i)])
    else result

/-- The function `Chunk`. -/
def Chunk (arr : List T) (size : Int) : List (List T) :=
  if size ≤ 0 then []
  else
    let length := arr.length
    let chunks := ceilDiv length size.toNat
    Chunk.loop arr size.toNat chunks length chunks 0 []

end Gobase.Arrayutil

/-!
gobase: strings (`utils/stringutil/stringutil.go`)

A Go string is a Lean `String`: `range str` goes through its characters (the
runes) with their byte offsets, `len` is the size in bytes. The functions of
package `unicode` are the ones of the ASCII range, which is all the claims
speak of. A string built from bytes, `string(b)`, is the list of its bytes.
-/

namespace Gobase.Stringutil

/-- The constant `DefaultCharset`. -/
def DefaultCharset : String :=
  "abcdefghijklmnopqrstuvwxyzABCDEFGHIJKLMNOPQRSTUVWXYZ0123456789!@#$%^&*()-_=+[]\x7b\x7d|;:,.<>?"

/-- The built-in `len` of a string: its size in bytes. -/
def len (s : String) : Int :=
  s.utf8ByteSize

/-- The function `unicode.IsUpper`, on ASCII runes. -/
def unicode_IsUpper (r : Char) : Bool :=
  r.isUpper

/-- The function `unicode.ToLower`, on ASCII runes. -/
def unicode_ToLower (r : Char) : Char :=
  r.toLower

/-- The function `unicode.ToUpper`, on ASCII runes. -/
def unicode_ToUpper (r : Char) : Char :=
  r.toUpper

/-- The function `strings.ToLower`, on ASCII strings. -/
def strings_ToLower (w : List Char) : List Char :=
  w.map unicode_ToLower

/-- The function `strings.Split` with a separator of one character: the
pieces between the separators, one more than there are separators. -/
def strings_Split (sep : Char) : List Char → List (List Char)
  | [] => [[]]
  | c :: cs =>
    if c = sep then [] :: strings_Split sep cs
    else
      match strings_Split sep cs with
      | w :: ws => (c :: w) :: ws
      | [] => [[c]]

/-- The function `strings.Repeat` for a count that is not negative. -/
def strings_Repeat (c : Char) (count : Int) : String :=
  String.mk (List.replicate count.toNat c)

/-- The loop of `SnakeCase` over the runes left, with the byte offset `i` of
the next rune and the builder so far. -/
def SnakeCase.loop : List Char → Nat → List Char → List Char
  | [], _, snakeCase => snakeCase
  | r :: rest, i, snakeCase =>
    let written :=
      if unicode_IsUpper r && decide (i > 0) then snakeCase ++ ['_'] else snakeCase
    SnakeCase.loop rest (i + r.utf8Size) (written ++ [unicode_ToLower r])

/-- The function `SnakeCase`. -/
def SnakeCase (str : String) : String :=
  String.mk (SnakeCase.loop str.data 0 [])

/-- The loop of `CamelCase` over the pieces left, with the flag `wroteFirst`
and the builder so far. -/
def CamelCase.loop : List (List Char) → Bool → List Char → List Char
  | [], _, b => b
  | w :: rest, wroteFirst, b =>
    if w = [] then CamelCase.loop rest wroteFirst b
    else if !wroteFirst then CamelCase.loop rest true (b ++ strings_ToLower w)
    else
      match strings_ToLower w with
      | [] => CamelCase.loop rest wroteFirst b
      | r0 :: runes => CamelCase.loop rest wroteFirst (b ++ unicode_ToUpper r0 :: runes)

/-- The function `CamelCase`. -/
def CamelCase (str : String) : String :=
  String.mk (CamelCase.loop (strings_Split '_' str.data) false [])

/-- The bytes of a string. -/
def bytes (s : String) : List UInt8 :=
  s.data.flatMap String.utf8EncodeChar

/-- The function `rand.Intn`, as package `math/rand` documents it: a number in
`[0, n)`, here the one the draw of the random source reduces to. -/
def rand_Intn (draw n : Nat) : Nat :=
  draw % n

/-- The loop `for i := range b` of `RandomStringWithCharset`: the bytes written
from index `i` on, `n` of them being left to write. Indexing `charset` out of
range panics (no result). -/
def RandomStringWithCharset.fill (charset : List UInt8) (draws : Nat → Nat) :
    Nat → Nat → Option (List UInt8)
  | 0, _ => some []
  | n + 1, i =>
    match charset[rand_Intn (draws i) charset.length]? with
    | none => none
    | some c => (RandomStringWithCharset.fill charset draws n (i + 1)).map (fun b => c :: b)

/-- The function `RandomStringWithCharset`, on the draws of the random source:
the bytes of the string returned, or no result when the call panics. -/
def RandomStringWithCharset (length : Int) (charset : String) (draws : Nat → Nat) :
    Option (List UInt8) :=
  if length ≤ 0 then some []
  else if charset = "" then some []
  else RandomStringWithCharset.fill (bytes charset) draws length.toNat 0

/-- The function `RandomString`. -/
def RandomString (length : Int) (draws : Nat → Nat) : Option (List UInt8) :=
  RandomStringWithCharset length DefaultCharset draws

/-- The function `FormatString`. The second test repeats the first, so its
branch, which would cut the text, is never taken. -/
def FormatString (text : String) (length : Int) (align : String) : String :=
  if len text ≥ length then text
  else if len text ≥ length then text.extract 0 ⟨length.toNat⟩
  else if align = "left" then text ++ (strings_Repeat ' ' (length - len text))
  else (strings_Repeat ' ' (length - len text)) ++ text

/-- The pieces of a string between underscores that are not empty. (Stated
from the claim.) -/
def segments (s : List Char) : List (List Char) :=
  (strings_Split '_' s).filter (fun w => w ≠ [])

/-- A piece in lower case with its first character in upper case. (Stated from
the claim.) -/
def capitalized (w : List Char) : List Char :=
  match w.map Char.toLower with
  | [] => []
  | c :: cs => c.toUpper :: cs

/-- The camel case of a string as the claim words it: the first piece in lower
case, then every later piece capitalized. -/
def camelOf (s : List Char) : List Char :=
  match segments s with
  | [] => []
  | w :: ws => w.map Char.toLower ++ (ws.map capitalized).flatten

/-- The snake case of a string as the claim words it: the string in lower
case, with an underscore before each character that was in upper case, the
first character apart. -/
def snakeOf : List Char → List Char
  | [] => []
  | c :: cs =>
    c.toLower :: cs.flatMap (fun r => if r.isUpper then ['_', r.toLower] else [r.toLower])

end Gobase.Stringutil

/-!
gobase: maps (`utils/maputil/maputil.go`)

A Go map is a reference to a map object, and `MergeMap` writes into the object
`data` refers to. The contents of a map object are the function from its keys
to their values; the objects are kept in a heap, from references to contents.
A nil map has no pairs to read.
-/

namespace Gobase.Maputil

variable {T A : Type} [DecidableEq T]

/-- The contents of a `map[T]A`. -/
abbrev GoMap (T A : Type) := T → Option A

/-- What `maps.Copy(dst, src)` leaves in `dst`, from the contents of the two
maps: every pair of `src` is put into `dst`, over the value `dst` had for the
key. -/
def maps_Copy (dst src : GoMap T A) : GoMap T A :=
  fun k =>
    match src k with
    | some v => some v
    | none => dst k

/-- A reference to a map object. -/
abbrev Ref := Nat

/-- The map objects: the contents each reference stands for. -/
abbrev Heap (T A : Type) := Ref → GoMap T A

/-- The pairs a map argument holds: those of its object, none for a nil map. -/
def Heap.read (h : Heap T A) (m : Option Ref) : GoMap T A :=
  match m with
  | none => fun _ => none
  | some r => h r

/-- The statement `maps.Copy(data, val)`: the object of `data` is updated in
place with the pairs `val` holds at that moment. -/
def copyInto (h : Heap T A) (data : Ref) (val : Option Ref) : Heap T A :=
  fun r => if r = data then maps_Copy (h data) (h.read val) else h r

/-- The function `MergeMap`, for `data` not nil: the map returned, which is
`data` itself, and the map objects after the call. -/
def MergeMap (h : Heap T A) (data : Ref) (d : List (Option Ref)) : Ref × Heap T A :=
  if d.length > 0 then (data, d.foldl (fun h1 val => copyInto h1 data val) h)
  else (data, h)

end Gobase.Maputil

/-!
gobase: reflective call (`utils/osutil/os.go`)

Package `reflect` is modelled as far as `Call` uses it: the kind and the name
of a type, the parameter types of a function type, the invalid `Value` that
`reflect.ValueOf(nil)` gives, and the panic of `Value.Call` on it.
-/

namespace Gobase.Osutil

/-- A `reflect.Kind` (the ones `Call` tests, and some of the others). -/
inductive Kind where
  | Bool
  | Int
  | String
  | Struct
  | Pointer
  | Interface
  | Slice
  | Map
  | Chan
  | Func
deriving DecidableEq, Repr

/-- A `reflect.Type` as `Call` looks at it: its kind, and its name as `%s`
prints it. -/
structure GoType where
  kind : Kind
  name : String
deriving DecidableEq, Repr

/-- A `reflect.Value`: the invalid zero `Value`, the zero value of a type, or a
value of a type. -/
inductive Value where
  | invalid
  | zero (t : GoType)
  | of (t : GoType) (data : String)
deriving DecidableEq, Repr

/-- How a call ends: it returns its results, or it panics. -/
inductive Result (α : Type) where
  | returned (a : α)
  | panicked
deriving DecidableEq, Repr

/-- An `interface{}` value that is not nil: its dynamic type, its content, and
for a value of a function type the parameter types and, unless the function
value is nil, what the function does on its arguments. -/
structure Iface where
  type : GoType
  data : String
  ins : List GoType
  body : Option (List Value → Result (List Value))

/-- The function `reflect.ValueOf`. -/
def reflect_ValueOf (v : Option Iface) : Value :=
  match v with
  | none => .invalid
  | some x => .of x.type x.data

/-- The method `Value.Call`: it panics on a nil function and on an argument
that is the invalid `Value`. -/
def Value_Call (f : Iface) (mp : List Value) : Result (List Value) :=
  match f.body with
  | none => .panicked
  | some body => if mp.any (fun x => x = .invalid) then .panicked else body mp

/-- The test of `Call` on the kind of a parameter given nil: true when the kind
cannot hold nil. -/
def cannotBeNil (k : Kind) : Bool :=
  k ≠ .Pointer && k ≠ .Interface && k ≠ .Slice && k ≠ .Map && k ≠ .Chan && k ≠ .Func

/-- The loop of `Call` that fills `mp`, from parameter `i` on: an error text, or
the values. The assignment `mp[i] = val` after the test overwrites what the
branches have put there. -/
def Call.convert (assignable : GoType → GoType → Bool) :
    List GoType → List (Option Iface) → Nat → Except String (List Value)
  | inType :: ins, v :: params, i =>
    let val := reflect_ValueOf v
    match v with
    | none =>
      if cannotBeNil inType.kind then
        .error ("param[" ++ toString i ++ "] cannot be nil for type " ++ inType.name)
      else
        -- here `mp[i] = reflect.Zero(inType)`, overwritten by `mp[i] = val`
        (Call.convert assignable ins params (i + 1)).map (fun rest => val :: rest)
    | some x =>
      if !assignable x.type inType then
        .error ("param[" ++ toString i ++ "] type mismatch: expected " ++ inType.name
          ++ ", got " ++ x.type.name)
      else
        -- here `mp[i] = val`, twice
        (Call.convert assignable ins params (i + 1)).map (fun rest => val :: rest)
  | _, _, _ => .ok []

/-- The function `Call`: the pair `([]reflect.Value, error)` it returns, or a
panic. `reflect.TypeOf(nil)` is the nil `Type`, on which `t.Kind()` panics. The
relation `assignable` stands for `Type.AssignableTo`. -/
def Call (assignable : GoType → GoType → Bool) (method : Option Iface)
    (params : List (Option Iface)) : Result (Option (List Value) × Option String) :=
  match method with
  | none => .panicked
  | some f =>
    if f.type.kind ≠ .Func then
      .returned (none, some "the input is not a function")
    else if params.length ≠ f.ins.length then
      .returned (none, some "the number of input params not match")
    else
      match Call.convert assignable f.ins params 0 with
      | .error err => .returned (none, some err)
      | .ok mp =>
        match Value_Call f mp with
        | .panicked => .panicked
        | .returned out => .returned (some out, none)

end Gobase.Osutil

namespace Gobase.Redis

/-! ## The invariant holds on every handle the interface produces -/

theorem NewDistributedLock_valid (key : String) (expiration : Duration) :
    (NewDistributedLock key expiration).Valid := by
  intro h
  simp [NewDistributedLock] at h

theorem Lock_valid (l : redisLock) (uuid : String) (rdb : Cmdable) (s : Store)
    (hv : l.Valid) : (Lock l uuid rdb s).2.1.Valid := by
  unfold Lock
  by_cases hheld : l.held = true
  · simpa [hheld] using hv
  · simp only [hheld, Bool.false_eq_true, if_false]
    split
    · intro h
      simp [hheld] at h
    · split
      · intro h
        simp [hheld] at h
      · intro _
        simp [redisLock.wired]

theorem Unlock_held_wired (l : redisLock) (rdb : Cmdable) (s : Store)
    (hheld : l.held = true) (hw : l.wired = true) :
    Unlock l rdb s = unlockRoundTrip l.stopped rdb s := by
  obtain ⟨key, value, expiration, held, stop, done, n⟩ := l
  simp only at hheld
  subst hheld
  cases stop <;> cases done <;> simp [redisLock.wired] at hw <;>
    simp [Unlock, closeStop, awaitDone, redisLock.stopped] <;>
    rw [if_neg (Nat.pos_iff_ne_zero.mp hw)]

theorem stopped_wired (l : redisLock) : l.stopped.wired = true := by
  simp [redisLock.stopped, redisLock.wired]

theorem unlockRoundTrip_handle (l : redisLock) (rdb : Cmdable) (s : Store) :
    (unlockRoundTrip l rdb s).2.1 = l ∨
      (unlockRoundTrip l rdb s).2.1 = { l with held := false } := by
  unfold unlockRoundTrip
  simp only []
  split
  · exact Or.inl rfl
  · split
    · exact Or.inl rfl
    · exact Or.inl rfl
    · exact Or.inr rfl

theorem Unlock_valid (l : redisLock) (rdb : Cmdable) (s : Store)
    (hv : l.Valid) : (Unlock l rdb s).2.1.Valid := by
  by_cases hheld : l.held = true
  · rw [Unlock_held_wired l rdb s hheld (hv hheld)]
    rcases unlockRoundTrip_handle l.stopped rdb s with h | h
    · rw [h]
      intro _
      exact stopped_wired l
    · rw [h]
      intro h2
      simp at h2
  · intro h
    simp [Unlock, hheld] at h

/-! ## What a call of `Lock` leaves in the handle -/

theorem Lock_key (l : redisLock) (uuid : String) (rdb : Cmdable) (s : Store) :
    (Lock l uuid rdb s).2.1.key = l.key := by
  unfold Lock
  split
  · rfl
  · simp only []
    split
    · rfl
    · split <;> rfl

theorem Lock_true_held (l : redisLock) (uuid : String) (rdb : Cmdable) (s : Store)
    (hok : (Lock l uuid rdb s).1.1 = true) : (Lock l uuid rdb s).2.1.held = true := by
  unfold Lock at hok ⊢
  split
  · assumption
  · rename_i hheld
    simp only [hheld, if_false] at hok
    simp only []
    split
    · rename_i herr
      simp [herr] at hok
    · rename_i herr
      simp only [herr] at hok
      split
      · rename_i hval
        simp [hval] at hok
      · rfl

/-! ## Release: the token check -/

/-- The round trip of `Unlock` against a store whose lease key does not carry
the token of the handle (another value, or no key at all): the script replies
0, `Unlock` returns the mismatch error, and neither the handle nor the store
changes. -/
theorem unlockRoundTrip_mismatch (l : redisLock) (s : Store)
    (h : GET s l.key ≠ some l.value) :
    unlockRoundTrip l redisServer s =
      (.returned (some (errors_New "lock value mismatch - possibly expired or stolen")),
        l, s) := by
  simp [unlockRoundTrip, redisServer, evalUnlockScript, h]

/-- The round trip of `Unlock` against a store whose lease key carries the
token of the handle: the key is deleted, `held` is cleared and nil is
returned. -/
theorem unlockRoundTrip_own (l : redisLock) (s : Store)
    (h : GET s l.key = some l.value) :
    unlockRoundTrip l redisServer s =
      (.returned none, { l with held := false }, s.erase l.key) := by
  have hk : ∃ e, s l.key = some e := by
    cases hs : s l.key with
    | none => simp [GET, hs] at h
    | some e => exact ⟨e, rfl⟩
  obtain ⟨e, he⟩ := hk
  simp [unlockRoundTrip, redisServer, evalUnlockScript, h, DEL, he]

/-- C1 (the code at a failing input). A fresh handle acquires the lease of
resource `job` with token `token-A`; the lease is then overwritten with
`token-B`. `Unlock` returns the mismatch error and the handle still has
`held = true`, with its watchdog stopped, where the claim says `held` is false
after the call. The handle stays so: once the foreign lease is gone too, a
`Lock` on it still returns `(true, nil)` and creates no lease, and `Unlock`
fails again. -/
theorem Unlock_mismatch_leaves_held :
    (Lock (NewDistributedLock "job" 5000000000) "token-A" redisServer Store.empty).1
        = (true, none) ∧
      (Unlock
          (Lock (NewDistributedLock "job" 5000000000) "token-A" redisServer Store.empty).2.1
          redisServer
          (Store.empty.set "lock:job" { value := "token-B", ttl := 5000000000 })).1
        = .returned (some (errors_New "lock value mismatch - possibly expired or stolen")) ∧
      (Unlock
          (Lock (NewDistributedLock "job" 5000000000) "token-A" redisServer Store.empty).2.1
          redisServer
          (Store.empty.set "lock:job" { value := "token-B", ttl := 5000000000 })).2.1
        = { key := "lock:job", value := "token-A", expiration := 5000000000, held := true,
            watchdogStop := .closed, watchdogDone := .closed, watchdogs := 0 } ∧
      (Lock
          { key := "lock:job", value := "token-A", expiration := 5000000000, held := true,
            watchdogStop := .closed, watchdogDone := .closed, watchdogs := 0 }
          "token-C" redisServer Store.empty).1 = (true, none) ∧
      (Lock
          { key := "lock:job", value := "token-A", expiration := 5000000000, held := true,
            watchdogStop := .closed, watchdogDone := .closed, watchdogs := 0 }
          "token-C" redisServer Store.empty).2.2 "lock:job" = none ∧
      (Unlock
          { key := "lock:job", value := "token-A", expiration := 5000000000, held := true,
            watchdogStop := .closed, watchdogDone := .closed, watchdogs := 0 }
          redisServer Store.empty).1
        = .returned (some (errors_New "lock value mismatch - possibly expired or stolen")) := by
  decide

/-- C2. For a valid handle with `held = true` and a store whose lease key
holds a value other than the token of the handle, `Unlock` (its round trip
answered by the store) returns the non-nil error `lock value mismatch -
possibly expired or stolen`, and the store is unchanged: the foreign key is
still there with its value and time-to-live. -/
theorem Unlock_foreign_value (l : redisLock) (s : Store) (e : Entry)
    (hheld : l.held = true) (hv : l.Valid)
    (hkey : s l.key = some e) (hne : e.value ≠ l.value) :
    (Unlock l redisServer s).1 =
        .returned (some (errors_New "lock value mismatch - possibly expired or stolen")) ∧
      (Unlock l redisServer s).2.2 = s ∧
      (Unlock l redisServer s).2.2 l.key = some e := by
  have hget : GET s l.stopped.key ≠ some l.stopped.value := by
    simp [GET, redisLock.stopped, hkey, hne]
  rw [Unlock_held_wired l redisServer s hheld (hv hheld),
    unlockRoundTrip_mismatch l.stopped s hget]
  exact ⟨rfl, rfl, hkey⟩

/-- C2 at the input of `TestLock_ValueMismatch`: the key holds
`someone-elses-value`, the handle has the token `my-different-value`, `held`
set by hand and both channels closed. -/
theorem Unlock_foreign_value_witness :
    (Unlock
        { key := "lock:test-mismatch", value := "my-different-value",
          expiration := 5000000000, held := true,
          watchdogStop := .closed, watchdogDone := .closed, watchdogs := 0 }
        redisServer
        (Store.empty.set "lock:test-mismatch"
          { value := "someone-elses-value", ttl := 10000000000 })).1 =
        .returned (some (errors_New "lock value mismatch - possibly expired or stolen")) ∧
      (Unlock
        { key := "lock:test-mismatch", value := "my-different-value",
          expiration := 5000000000, held := true,
          watchdogStop := .closed, watchdogDone := .closed, watchdogs := 0 }
        redisServer
        (Store.empty.set "lock:test-mismatch"
          { value := "someone-elses-value", ttl := 10000000000 })).2.2 =
        Store.empty.set "lock:test-mismatch"
          { value := "someone-elses-value", ttl := 10000000000 } ∧
      (Unlock
        { key := "lock:test-mismatch", value := "my-different-value",
          expiration := 5000000000, held := true,
          watchdogStop := .closed, watchdogDone := .closed, watchdogs := 0 }
        redisServer
        (Store.empty.set "lock:test-mismatch"
          { value := "someone-elses-value", ttl := 10000000000 })).2.2
          "lock:test-mismatch" =
        some { value := "someone-elses-value", ttl := 10000000000 } :=
  Unlock_foreign_value
    { key := "lock:test-mismatch", value := "my-different-value",
      expiration := 5000000000, held := true,
      watchdogStop := .closed, watchdogDone := .closed, watchdogs := 0 }
    (Store.empty.set "lock:test-mismatch"
      { value := "someone-elses-value", ttl := 10000000000 })
    { value := "someone-elses-value", ttl := 10000000000 }
    (by decide) (by decide) (by decide) (by decide)

/-! ## Acquisition -/

/-- C3. Two handles for the same lease key, neither holding it, and a store
without that key whose set-if-absent is atomic and is answered: whichever of the
two `Lock` calls reaches the store first returns `(true, nil)` and the other
one returns `(false, nil)`. -/
theorem Lock_race_exactly_one (l1 l2 : redisLock) (u1 u2 : String) (s : Store)
    (h1 : l1.held = false) (h2 : l2.held = false)
    (hk : l1.key = l2.key) (hs : s l1.key = none) :
    ((Lock l1 u1 redisServer s).1 = (true, none) ∧
        (Lock l2 u2 redisServer (Lock l1 u1 redisServer s).2.2).1 = (false, none)) ∧
      ((Lock l2 u2 redisServer s).1 = (true, none) ∧
        (Lock l1 u1 redisServer (Lock l2 u2 redisServer s).2.2).1 = (false, none)) := by
  have hs2 : s l2.key = none := hk ▸ hs
  simp [Lock, h1, h2, redisServer, SETNX, hs, hs2, Store.set, hk]

/-- C3 at two fresh handles for the resource `test-concurrent` and the empty
store, as in `TestLock_ConcurrentLock`. -/
theorem Lock_race_exactly_one_witness :
    ((Lock (NewDistributedLock "test-concurrent" 5000000000) "u1" redisServer
          Store.empty).1 = (true, none) ∧
        (Lock (NewDistributedLock "test-concurrent" 5000000000) "u2" redisServer
          (Lock (NewDistributedLock "test-concurrent" 5000000000) "u1" redisServer
            Store.empty).2.2).1 = (false, none)) ∧
      ((Lock (NewDistributedLock "test-concurrent" 5000000000) "u2" redisServer
          Store.empty).1 = (true, none) ∧
        (Lock (NewDistributedLock "test-concurrent" 5000000000) "u1" redisServer
          (Lock (NewDistributedLock "test-concurrent" 5000000000) "u2" redisServer
            Store.empty).2.2).1 = (false, none)) :=
  Lock_race_exactly_one
    (NewDistributedLock "test-concurrent" 5000000000)
    (NewDistributedLock "test-concurrent" 5000000000) "u1" "u2" Store.empty
    (by decide) (by decide) (by decide) (by decide)

/-- C4. On a handle with `held = true`, `Lock` returns `(true, nil)` and
leaves the handle (token and `held` included) and the store as they were,
whatever the store holds and whatever the client would have answered: no
round trip is made. -/
theorem Lock_held_noop (l : redisLock) (uuid : String) (rdb : Cmdable) (s : Store)
    (hheld : l.held = true) :
    Lock l uuid rdb s = ((true, none), l, s) := by
  simp [Lock, hheld]

/-- C4 at a held handle whose lease has been taken over in the store, with a
client that would fail. -/
theorem Lock_held_noop_witness :
    Lock
        { key := "lock:test-retry", value := "token-A", expiration := 200000000,
          held := true, watchdogStop := .made, watchdogDone := .made, watchdogs := 1 }
        "token-C" (unreachableServer (errors_New "connection refused"))
        (Store.empty.set "lock:test-retry" { value := "token-B", ttl := 200000000 }) =
      ((true, none),
        { key := "lock:test-retry", value := "token-A", expiration := 200000000,
          held := true, watchdogStop := .made, watchdogDone := .made, watchdogs := 1 },
        Store.empty.set "lock:test-retry" { value := "token-B", ttl := 200000000 }) :=
  Lock_held_noop _ _ _ _ (by decide)

/-- C5. On a handle with `held = false` and a store without the lease key,
a `Lock` whose round trip is answered returns `(true, nil)`, sets `held`,
makes both channels and starts one watchdog; afterwards the store holds the
lease key with the fresh token and the lease duration of the handle as its
time-to-live, and every other key is as it was. -/
theorem Lock_absent_acquires (l : redisLock) (uuid : String) (s : Store)
    (hheld : l.held = false) (hs : s l.key = none) :
    (Lock l uuid redisServer s).1 = (true, none) ∧
      (Lock l uuid redisServer s).2.1 =
        { l with
          value := uuid
          held := true
          watchdogStop := .made
          watchdogDone := .made
          watchdogs := l.watchdogs + 1 } ∧
      (Lock l uuid redisServer s).2.2 l.key =
        some { value := (Lock l uuid redisServer s).2.1.value, ttl := l.expiration } ∧
      ∀ k, k ≠ l.key → (Lock l uuid redisServer s).2.2 k = s k := by
  refine ⟨?_, ?_, ?_, ?_⟩
  · simp [Lock, hheld, redisServer, SETNX, hs]
  · simp [Lock, hheld, redisServer, SETNX, hs]
  · simp [Lock, hheld, redisServer, SETNX, hs, Store.set]
  · intro k hk
    simp [Lock, hheld, redisServer, SETNX, hs, Store.set, hk]

/-- C5 at a fresh handle for `test-basic` with a lease of five seconds and the
empty store, as in `TestLock_BasicLockUnlock`. -/
theorem Lock_absent_acquires_witness :
    (Lock (NewDistributedLock "test-basic" 5000000000) "token-A" redisServer
        Store.empty).1 = (true, none) ∧
      (Lock (NewDistributedLock "test-basic" 5000000000) "token-A" redisServer
        Store.empty).2.1 =
        { key := "lock:test-basic", value := "token-A", expiration := 5000000000,
          held := true, watchdogStop := .made, watchdogDone := .made, watchdogs := 1 } ∧
      (Lock (NewDistributedLock "test-basic" 5000000000) "token-A" redisServer
        Store.empty).2.2 "lock:test-basic" =
        some { value := "token-A", ttl := 5000000000 } ∧
      ∀ k, k ≠ "lock:test-basic" →
        (Lock (NewDistributedLock "test-basic" 5000000000) "token-A" redisServer
          Store.empty).2.2 k = none :=
  Lock_absent_acquires (NewDistributedLock "test-basic" 5000000000) "token-A"
    Store.empty (by decide) (by decide)

/-- C6. On a handle with `held = false` and a store in which the lease key is
present, with any value, a `Lock` whose round trip is answered returns
`(false, nil)`: `held` stays false, the channels are not touched and no
watchdog is started, and the store is unchanged, the key still bound to the
same value and time-to-live. -/
theorem Lock_present_refused (l : redisLock) (uuid : String) (s : Store) (e : Entry)
    (hheld : l.held = false) (hs : s l.key = some e) :
    (Lock l uuid redisServer s).1 = (false, none) ∧
      (Lock l uuid redisServer s).2.1 = { l with value := uuid } ∧
      (Lock l uuid redisServer s).2.1.held = false ∧
      (Lock l uuid redisServer s).2.1.watchdogs = l.watchdogs ∧
      (Lock l uuid redisServer s).2.2 = s ∧
      (Lock l uuid redisServer s).2.2 l.key = some e := by
  have h : Lock l uuid redisServer s = ((false, none), { l with value := uuid }, s) := by
    simp [Lock, hheld, redisServer, SETNX, hs]
  rw [h]
  exact ⟨rfl, rfl, hheld, rfl, rfl, hs⟩

/-- C6 at a fresh handle for `test-concurrent` when another handle holds the
lease with token `token-B`. -/
theorem Lock_present_refused_witness :
    (Lock (NewDistributedLock "test-concurrent" 5000000000) "token-A" redisServer
        (Store.empty.set "lock:test-concurrent"
          { value := "token-B", ttl := 5000000000 })).1 = (false, none) ∧
      (Lock (NewDistributedLock "test-concurrent" 5000000000) "token-A" redisServer
        (Store.empty.set "lock:test-concurrent"
          { value := "token-B", ttl := 5000000000 })).2.1 =
        { NewDistributedLock "test-concurrent" 5000000000 with value := "token-A" } ∧
      (Lock (NewDistributedLock "test-concurrent" 5000000000) "token-A" redisServer
        (Store.empty.set "lock:test-concurrent"
          { value := "token-B", ttl := 5000000000 })).2.1.held = false ∧
      (Lock (NewDistributedLock "test-concurrent" 5000000000) "token-A" redisServer
        (Store.empty.set "lock:test-concurrent"
          { value := "token-B", ttl := 5000000000 })).2.1.watchdogs = 0 ∧
      (Lock (NewDistributedLock "test-concurrent" 5000000000) "token-A" redisServer
        (Store.empty.set "lock:test-concurrent"
          { value := "token-B", ttl := 5000000000 })).2.2 =
        Store.empty.set "lock:test-concurrent"
          { value := "token-B", ttl := 5000000000 } ∧
      (Lock (NewDistributedLock "test-concurrent" 5000000000) "token-A" redisServer
        (Store.empty.set "lock:test-concurrent"
          { value := "token-B", ttl := 5000000000 })).2.2 "lock:test-concurrent" =
        some { value := "token-B", ttl := 5000000000 } :=
  Lock_present_refused (NewDistributedLock "test-concurrent" 5000000000) "token-A"
    (Store.empty.set "lock:test-concurrent" { value := "token-B", ttl := 5000000000 })
    { value := "token-B", ttl := 5000000000 } (by decide) (by decide)

/-- C7. On a handle with `held = false`, when the set-if-absent round trip
fails with the error `e`, `Lock` returns `(false, e)`; `held` stays false, the
channels are not touched and no watchdog is started. A later `Lock` on the
same handle makes the round trip again: its effect on the store is that of a
new set-if-absent on the lease key, and against a store that answers and has no
lease key it returns `(true, nil)`. -/
theorem Lock_store_error (l : redisLock) (uuid : String) (rdb : Cmdable) (s : Store)
    (e : GoError) (hheld : l.held = false)
    (herr : (rdb.SetNX l.key uuid l.expiration s).1.err = some e) :
    (Lock l uuid rdb s).1 = (false, some e) ∧
      (Lock l uuid rdb s).2.1 = { l with value := uuid } ∧
      (Lock l uuid rdb s).2.1.held = false ∧
      (Lock l uuid rdb s).2.1.watchdogs = l.watchdogs ∧
      (∀ (uuid2 : String) (rdb2 : Cmdable) (s2 : Store),
        (Lock (Lock l uuid rdb s).2.1 uuid2 rdb2 s2).2.2 =
          (rdb2.SetNX l.key uuid2 l.expiration s2).2) ∧
      (∀ (uuid2 : String) (s2 : Store), s2 l.key = none →
        (Lock (Lock l uuid rdb s).2.1 uuid2 redisServer s2).1 = (true, none)) := by
  have h : Lock l uuid rdb s =
      ((false, some e), { l with value := uuid }, (rdb.SetNX l.key uuid l.expiration s).2) := by
    simp [Lock, hheld, herr]
  rw [h]
  refine ⟨rfl, rfl, hheld, rfl, ?_, ?_⟩
  · intro uuid2 rdb2 s2
    simp only [Lock, hheld]
    simp only [Bool.false_eq_true, if_false]
    split
    · rfl
    · split <;> rfl
  · intro uuid2 s2 hs2
    simp [Lock, hheld, redisServer, SETNX, hs2]

/-- C7 at a fresh handle whose client cannot reach the store. -/
theorem Lock_store_error_witness :
    (Lock (NewDistributedLock "test-basic" 5000000000) "token-A"
        (unreachableServer (errors_New "dial tcp: connection refused")) Store.empty).1 =
        (false, some (errors_New "dial tcp: connection refused")) ∧
      (Lock (NewDistributedLock "test-basic" 5000000000) "token-A"
        (unreachableServer (errors_New "dial tcp: connection refused")) Store.empty).2.1 =
        { NewDistributedLock "test-basic" 5000000000 with value := "token-A" } ∧
      (Lock (NewDistributedLock "test-basic" 5000000000) "token-A"
        (unreachableServer (errors_New "dial tcp: connection refused"))
        Store.empty).2.1.held = false ∧
      (Lock (NewDistributedLock "test-basic" 5000000000) "token-A"
        (unreachableServer (errors_New "dial tcp: connection refused"))
        Store.empty).2.1.watchdogs = 0 ∧
      (∀ (uuid2 : String) (rdb2 : Cmdable) (s2 : Store),
        (Lock (Lock (NewDistributedLock "test-basic" 5000000000) "token-A"
          (unreachableServer (errors_New "dial tcp: connection refused"))
          Store.empty).2.1 uuid2 rdb2 s2).2.2 =
          (rdb2.SetNX "lock:test-basic" uuid2 5000000000 s2).2) ∧
      (∀ (uuid2 : String) (s2 : Store), s2 "lock:test-basic" = none →
        (Lock (Lock (NewDistributedLock "test-basic" 5000000000) "token-A"
          (unreachableServer (errors_New "dial tcp: connection refused"))
          Store.empty).2.1 uuid2 redisServer s2).1 = (true, none)) :=
  Lock_store_error (NewDistributedLock "test-basic" 5000000000) "token-A"
    (unreachableServer (errors_New "dial tcp: connection refused")) Store.empty
    (errors_New "dial tcp: connection refused") (by decide) (by decide)

/-! ## Release -/

/-- C8. On a handle with `held = false`, a fresh one in particular, `Unlock`
returns the error `lock not held by current session` and leaves the handle
and the store as they were, whatever the store holds and whatever the client
would have answered: no round trip is made. -/
theorem Unlock_not_held (l : redisLock) (rdb : Cmdable) (s : Store)
    (hheld : l.held = false) :
    Unlock l rdb s =
      (.returned (some (errors_New "lock not held by current session")), l, s) := by
  simp [Unlock, hheld]

/-- C8 at a fresh handle, as in `TestLock_UnlockWithoutLock`. -/
theorem Unlock_not_held_witness :
    Unlock (NewDistributedLock "test-unlock-without" 5000000000) redisServer
        Store.empty =
      (.returned (some (errors_New "lock not held by current session")),
        NewDistributedLock "test-unlock-without" 5000000000, Store.empty) :=
  Unlock_not_held _ _ _ (by decide)

/-- C9. Take a valid handle on which `Lock` has returned true. If the lease
key still carries the token of the handle when `Unlock` runs, and the round
trip is answered, then `Unlock` returns nil, `held` becomes false and the
lease key is absent from the store afterwards; a `Lock` that follows on any
handle for the same lease key returns `(true, nil)`. -/
theorem Unlock_own_token_releases (l0 : redisLock) (uuid : String) (rdb0 : Cmdable)
    (s0 : Store) (hv : l0.Valid) (hok : (Lock l0 uuid rdb0 s0).1.1 = true)
    (s : Store) (e : Entry) (hkey : s l0.key = some e)
    (hval : e.value = (Lock l0 uuid rdb0 s0).2.1.value) :
    (Unlock (Lock l0 uuid rdb0 s0).2.1 redisServer s).1 = .returned none ∧
      (Unlock (Lock l0 uuid rdb0 s0).2.1 redisServer s).2.1.held = false ∧
      (Unlock (Lock l0 uuid rdb0 s0).2.1 redisServer s).2.2 l0.key = none ∧
      ∀ (l2 : redisLock) (u2 : String), l2.key = l0.key →
        (Lock l2 u2 redisServer
          (Unlock (Lock l0 uuid rdb0 s0).2.1 redisServer s).2.2).1 = (true, none) := by
  have hheld := Lock_true_held l0 uuid rdb0 s0 hok
  have hvalid := Lock_valid l0 uuid rdb0 s0 hv
  have hk := Lock_key l0 uuid rdb0 s0
  generalize Lock l0 uuid rdb0 s0 = r at hheld hvalid hk hval
  have hget : GET s r.2.1.stopped.key = some r.2.1.stopped.value := by
    simp [GET, redisLock.stopped, hk, hkey, hval]
  rw [Unlock_held_wired r.2.1 redisServer s hheld (hvalid hheld),
    unlockRoundTrip_own r.2.1.stopped s hget]
  have hk2 : r.2.1.stopped.key = l0.key := by simp [redisLock.stopped, hk]
  refine ⟨rfl, rfl, ?_, ?_⟩
  · simp [Store.erase, hk2]
  · intro l2 u2 hl2
    by_cases h2 : l2.held = true
    · simp [Lock, h2]
    · simp [Lock, h2, redisServer, SETNX, Store.erase, hk2, hl2]

/-- C9 on the run of `TestLock_BasicLockUnlock`: a fresh handle acquires the
lease with token `token-A`, the store still holds it when `Unlock` runs. -/
theorem Unlock_own_token_releases_witness :
    (Unlock (Lock (NewDistributedLock "test-basic" 5000000000) "token-A" redisServer
        Store.empty).2.1 redisServer
        (Store.empty.set "lock:test-basic"
          { value := "token-A", ttl := 5000000000 })).1 = .returned none ∧
      (Unlock (Lock (NewDistributedLock "test-basic" 5000000000) "token-A" redisServer
        Store.empty).2.1 redisServer
        (Store.empty.set "lock:test-basic"
          { value := "token-A", ttl := 5000000000 })).2.1.held = false ∧
      (Unlock (Lock (NewDistributedLock "test-basic" 5000000000) "token-A" redisServer
        Store.empty).2.1 redisServer
        (Store.empty.set "lock:test-basic"
          { value := "token-A", ttl := 5000000000 })).2.2 "lock:test-basic" = none ∧
      ∀ (l2 : redisLock) (u2 : String), l2.key = "lock:test-basic" →
        (Lock l2 u2 redisServer
          (Unlock (Lock (NewDistributedLock "test-basic" 5000000000) "token-A"
            redisServer Store.empty).2.1 redisServer
            (Store.empty.set "lock:test-basic"
              { value := "token-A", ttl := 5000000000 })).2.2).1 = (true, none) :=
  Unlock_own_token_releases (NewDistributedLock "test-basic" 5000000000) "token-A"
    redisServer Store.empty (by decide) (by decide)
    (Store.empty.set "lock:test-basic" { value := "token-A", ttl := 5000000000 })
    { value := "token-A", ttl := 5000000000 } (by decide) (by decide)

/-- C10. On a valid handle with `held = true`, when the round trip of the
compare-and-delete script fails with an error `e` that is not the nil reply,
`Unlock` returns `e` and `held` is still true: the handle is as before but for
its watchdog, which is stopped. The caller may call `Unlock` again: the second
call goes straight to its round trip, and when that one is answered by a store
that still holds the token it returns nil and clears `held`. -/
theorem Unlock_store_error (l : redisLock) (rdb : Cmdable) (s : Store) (e : GoError)
    (hheld : l.held = true) (hv : l.Valid)
    (herr : (rdb.Run .unlockScript [l.key] [.str l.value] s).1.err = some e)
    (hnil : e.isNil = false) :
    (Unlock l rdb s).1 = .returned (some e) ∧
      (Unlock l rdb s).2.1.held = true ∧
      (Unlock l rdb s).2.1 = l.stopped ∧
      (∀ (rdb2 : Cmdable) (s2 : Store),
        Unlock (Unlock l rdb s).2.1 rdb2 s2 =
          unlockRoundTrip (Unlock l rdb s).2.1 rdb2 s2) ∧
      (∀ (s2 : Store), GET s2 l.key = some l.value →
        (Unlock (Unlock l rdb s).2.1 redisServer s2).1 = .returned none ∧
          (Unlock (Unlock l rdb s).2.1 redisServer s2).2.1.held = false) := by
  have herr2 : (rdb.Run .unlockScript [l.stopped.key] [.str l.stopped.value] s).1.err
      = some e := herr
  have h : Unlock l rdb s =
      (.returned (some e), l.stopped,
        (rdb.Run .unlockScript [l.key] [.str l.value] s).2) := by
    rw [Unlock_held_wired l rdb s hheld (hv hheld)]
    simp only [unlockRoundTrip, herr2]
    simp [hnil]
    rfl
  have hidem : l.stopped.stopped = l.stopped := by
    simp [redisLock.stopped]
  have hheld2 : l.stopped.held = true := hheld
  rw [h]
  refine ⟨rfl, hheld, rfl, ?_, ?_⟩
  · intro rdb2 s2
    simp only []
    rw [Unlock_held_wired l.stopped rdb2 s2 hheld2 (stopped_wired l), hidem]
  · intro s2 hs2
    simp only []
    rw [Unlock_held_wired l.stopped redisServer s2 hheld2 (stopped_wired l), hidem,
      unlockRoundTrip_own l.stopped s2 hs2]
    exact ⟨rfl, rfl⟩

/-- C10 at a handle that holds the lease of `test-basic` when the store cannot
be reached. -/
theorem Unlock_store_error_witness :
    (Unlock (Lock (NewDistributedLock "test-basic" 5000000000) "token-A" redisServer
        Store.empty).2.1 (unreachableServer (errors_New "i/o timeout"))
        (Store.empty.set "lock:test-basic"
          { value := "token-A", ttl := 5000000000 })).1 =
        .returned (some (errors_New "i/o timeout")) ∧
      (Unlock (Lock (NewDistributedLock "test-basic" 5000000000) "token-A" redisServer
        Store.empty).2.1 (unreachableServer (errors_New "i/o timeout"))
        (Store.empty.set "lock:test-basic"
          { value := "token-A", ttl := 5000000000 })).2.1.held = true :=
  have h := Unlock_store_error
    (Lock (NewDistributedLock "test-basic" 5000000000) "token-A" redisServer
      Store.empty).2.1
    (unreachableServer (errors_New "i/o timeout"))
    (Store.empty.set "lock:test-basic" { value := "token-A", ttl := 5000000000 })
    (errors_New "i/o timeout") (by decide) (by decide) (by decide) (by decide)
  ⟨h.1, h.2.1⟩

/-! ## How `held` changes -/

theorem Lock_of_held (l : redisLock) (uuid : String) (rdb : Cmdable) (s : Store)
    (hheld : l.held = true) : Lock l uuid rdb s = ((true, none), l, s) := by
  simp [Lock, hheld]

theorem Unlock_of_not_held (l : redisLock) (rdb : Cmdable) (s : Store)
    (hheld : l.held = false) :
    Unlock l rdb s =
      (.returned (some (errors_New "lock not held by current session")), l, s) := by
  simp [Unlock, hheld]

theorem closeStop_fields (l l1 : redisLock) (h : closeStop l = some l1) :
    l1.key = l.key ∧ l1.value = l.value ∧ l1.held = l.held ∧
      l1.expiration = l.expiration ∧ l1.watchdogStop = .closed ∧
      l1.watchdogDone = l.watchdogDone ∧ l1.watchdogs = l.watchdogs := by
  unfold closeStop at h
  split at h
  · rename_i hc
    cases h
    simp [hc]
  · cases h
    simp
  · cases h

theorem awaitDone_fields (l l2 : redisLock) (h : awaitDone l = some l2) :
    l2.key = l.key ∧ l2.value = l.value ∧ l2.held = l.held ∧
      l2.expiration = l.expiration ∧ l2.watchdogStop = l.watchdogStop ∧
      l2.watchdogDone = .closed := by
  unfold awaitDone at h
  split at h
  · rename_i hc
    cases h
    simp [hc]
  · split at h
    · cases h
    · cases h
      simp
  · cases h

theorem unlockRoundTrip_clears (l : redisLock) (rdb : Cmdable) (s : Store)
    (h1 : l.held = true) (h2 : (unlockRoundTrip l rdb s).2.1.held = false) :
    (rdb.Run .unlockScript [l.key] [.str l.value] s).1.err.any (fun e => !e.isNil) = false ∧
      (rdb.Run .unlockScript [l.key] [.str l.value] s).1.val ≠ some (.int 0) ∧
      (unlockRoundTrip l rdb s).2.2 = (rdb.Run .unlockScript [l.key] [.str l.value] s).2 := by
  unfold unlockRoundTrip at h2 ⊢
  simp only [] at h2 ⊢
  split at h2
  · simp [h1] at h2
  · rename_i herr
    split at h2
    · simp [h1] at h2
    · simp [h1] at h2
    · rename_i hres _
      refine ⟨by simpa using herr, ?_, ?_⟩
      · intro h0
        exact hres h0
      · simp only [herr]
        split <;> rfl

theorem Lock_sets_held (l : redisLock) (uuid : String) (rdb : Cmdable) (s : Store)
    (h1 : l.held = false) (h2 : (Lock l uuid rdb s).2.1.held = true) :
    (rdb.SetNX l.key uuid l.expiration s).1 = { val := true, err := none } ∧
      (Lock l uuid rdb s).2.2 = (rdb.SetNX l.key uuid l.expiration s).2 := by
  unfold Lock at h2 ⊢
  simp only [h1, Bool.false_eq_true, if_false] at h2 ⊢
  split at h2
  · simp [h1] at h2
  · rename_i herr
    split at h2
    · simp [h1] at h2
    · rename_i hval
      simp only [herr, hval]
      refine ⟨?_, rfl⟩
      cases hr : (rdb.SetNX l.key uuid l.expiration s).1 with
      | mk val err =>
        simp only [hr] at herr hval
        simp at hval
        simp [herr, hval]

theorem Unlock_clears_held (l : redisLock) (rdb : Cmdable) (s : Store)
    (h1 : l.held = true) (h2 : (Unlock l rdb s).2.1.held = false) :
    (rdb.Run .unlockScript [l.key] [.str l.value] s).1.err.any (fun e => !e.isNil) = false ∧
      (rdb.Run .unlockScript [l.key] [.str l.value] s).1.val ≠ some (.int 0) ∧
      (Unlock l rdb s).2.2 = (rdb.Run .unlockScript [l.key] [.str l.value] s).2 := by
  unfold Unlock at h2 ⊢
  simp only [h1, Bool.not_true, Bool.false_eq_true, if_false] at h2 ⊢
  split at h2
  · simp [h1] at h2
  · rename_i l1 hl1
    obtain ⟨hk1, hv1, hh1, -⟩ := closeStop_fields l l1 hl1
    split at h2
    · simp [hh1, h1] at h2
    · rename_i l2 hl2
      obtain ⟨hk2, hv2, hh2, -⟩ := awaitDone_fields l1 l2 hl2
      have h := unlockRoundTrip_clears l2 rdb s (by rw [hh2, hh1, h1]) h2
      rw [hk2, hk1, hv2, hv1] at h
      exact h

/-- C11. After any sequence of `Lock`, `Unlock` and renewal steps on a handle
(and of changes made to the store by others), whatever the client answers:
if the next step takes `held` from false to true, it is a `Lock` whose
set-if-absent came back true without error, and when that answer is the one
of the store the lease key was absent and is now bound to the fresh token; if
the next step takes `held` from true to false, it is an `Unlock` whose
compare-and-delete came back without failure and with a reply other than 0,
and when that answer is the one of the store the lease key carried the token
of the handle and is now absent. No other step changes `held`. (A reply 0,
the detected mismatch, never clears `held` in the code.) -/
theorem held_changes_only (l0 : redisLock) (s0 : Store) (steps : List Step) (st : Step) :
    let c := run steps (l0, s0)
    let c1 := step st c
    (c.1.held = false → c1.1.held = true →
      ∃ uuid rdb, st = .lock uuid rdb ∧
        (rdb.SetNX c.1.key uuid c.1.expiration c.2).1 = { val := true, err := none } ∧
        (rdb.SetNX c.1.key uuid c.1.expiration c.2 =
            redisServer.SetNX c.1.key uuid c.1.expiration c.2 →
          c.2 c.1.key = none ∧
            c1.2 c.1.key = some { value := uuid, ttl := c.1.expiration })) ∧
    (c.1.held = true → c1.1.held = false →
      ∃ rdb, st = .unlock rdb ∧
        (rdb.Run .unlockScript [c.1.key] [.str c.1.value] c.2).1.err.any
            (fun e => !e.isNil) = false ∧
        (rdb.Run .unlockScript [c.1.key] [.str c.1.value] c.2).1.val ≠ some (.int 0) ∧
        (rdb.Run .unlockScript [c.1.key] [.str c.1.value] c.2 =
            redisServer.Run .unlockScript [c.1.key] [.str c.1.value] c.2 →
          GET c.2 c.1.key = some c.1.value ∧ c1.2 c.1.key = none)) := by
  intro c c1
  refine ⟨?_, ?_⟩
  · intro h1 h2
    cases st with
    | lock uuid rdb =>
      obtain ⟨hr, hs⟩ := Lock_sets_held c.1 uuid rdb c.2 h1 h2
      refine ⟨uuid, rdb, rfl, hr, ?_⟩
      intro hsrv
      have hs1 : c1.2 = (rdb.SetNX c.1.key uuid c.1.expiration c.2).2 := hs
      rw [hsrv] at hr
      rw [hs1, hsrv]
      cases hk : c.2 c.1.key with
      | none => simp [redisServer, SETNX, hk, Store.set]
      | some e => simp [redisServer, SETNX, hk] at hr
    | unlock rdb =>
      have h3 : (Unlock c.1 rdb c.2).2.1.held = true := h2
      by_cases hh : c.1.held = true
      · rw [hh] at h1
        cases h1
      · simp [Unlock, h1] at h3
    | renew rdb =>
      have h3 : c.1.held = true := h2
      rw [h3] at h1
      cases h1
    | env s =>
      have h3 : c.1.held = true := h2
      rw [h3] at h1
      cases h1
  · intro h1 h2
    cases st with
    | lock uuid rdb =>
      have h3 : (Lock c.1 uuid rdb c.2).2.1.held = false := h2
      rw [Lock_of_held c.1 uuid rdb c.2 h1] at h3
      rw [h1] at h3
      cases h3
    | unlock rdb =>
      obtain ⟨he, hv, hs⟩ := Unlock_clears_held c.1 rdb c.2 h1 h2
      refine ⟨rdb, rfl, he, hv, ?_⟩
      intro hsrv
      have hs1 : c1.2 = (rdb.Run .unlockScript [c.1.key] [.str c.1.value] c.2).2 := hs
      rw [hsrv] at hv
      rw [hs1, hsrv]
      by_cases hg : GET c.2 c.1.key = some c.1.value
      · refine ⟨hg, ?_⟩
        cases hk : c.2 c.1.key with
        | none => simp [GET, hk] at hg
        | some e => simp [redisServer, evalUnlockScript, hg, DEL, hk, Store.erase]
      · simp [redisServer, evalUnlockScript, hg] at hv
    | renew rdb =>
      have h3 : c.1.held = false := h2
      rw [h3] at h1
      cases h1
    | env s =>
      have h3 : c.1.held = false := h2
      rw [h3] at h1
      cases h1

/-! ## Renewal -/

theorem renew_server (l : redisLock) (s : Store) :
    renew l redisServer s =
      (evalRenewScript l.key l.value (Int.tdiv l.expiration Millisecond) s).2 := by
  simp [renew, redisServer]

/-- C12 (the claim fails). A fresh handle with a lease duration of 1.5 ms
acquires the lease of `job`; the key carries its token with that time-to-live.
One renewal sets the time-to-live to 1 ms, not to the lease duration: `renew`
passes the duration in whole milliseconds, `int64(l.expiration /
time.Millisecond)`. -/
theorem renew_truncates_to_milliseconds :
    (Lock (NewDistributedLock "job" 1500000) "token-A" redisServer Store.empty).2.1.expiration
        = 1500000 ∧
      (Lock (NewDistributedLock "job" 1500000) "token-A" redisServer Store.empty).2.2
          "lock:job" = some { value := "token-A", ttl := 1500000 } ∧
      renew (Lock (NewDistributedLock "job" 1500000) "token-A" redisServer Store.empty).2.1
          redisServer
          (Lock (NewDistributedLock "job" 1500000) "token-A" redisServer Store.empty).2.2
          "lock:job" = some { value := "token-A", ttl := 1000000 } ∧
      ¬ ((renew
          (Lock (NewDistributedLock "job" 1500000) "token-A" redisServer Store.empty).2.1
          redisServer
          (Lock (NewDistributedLock "job" 1500000) "token-A" redisServer Store.empty).2.2
          "lock:job").map Entry.ttl =
        some (Lock (NewDistributedLock "job" 1500000) "token-A" redisServer
          Store.empty).2.1.expiration) := by
  decide

/-- Below one millisecond the duration `renew` passes is 0, which the store
does not take as a time-to-live: the renewal removes the key. -/
theorem renew_below_millisecond :
    renew (Lock (NewDistributedLock "job" 500000) "token-A" redisServer Store.empty).2.1
        redisServer
        (Lock (NewDistributedLock "job" 500000) "token-A" redisServer Store.empty).2.2
        "lock:job" = none := by
  decide

/-- C12 (amended). For a handle whose lease duration is at least one
millisecond, one renewal answered by the store sets the time-to-live of the
lease key to the lease duration in whole milliseconds when the key carries the
token of the handle (so to the lease duration itself when that is a whole
number of milliseconds), and otherwise, the value being another or the key
absent, leaves the store as it was. In no case does it change the value of a
key, create or delete a key, or touch another key. -/
theorem renew_extends (l : redisLock) (s : Store) (hms : Millisecond ≤ l.expiration) :
    (∀ e, s l.key = some e → e.value = l.value →
        renew l redisServer s =
          s.set l.key
            { value := e.value, ttl := Int.tdiv l.expiration Millisecond * Millisecond }) ∧
      (∀ e, s l.key = some e → e.value = l.value → l.expiration % Millisecond = 0 →
        renew l redisServer s l.key = some { value := e.value, ttl := l.expiration }) ∧
      (GET s l.key ≠ some l.value → renew l redisServer s = s) ∧
      (∀ k, GET (renew l redisServer s) k = GET s k) ∧
      (∀ k, k ≠ l.key → renew l redisServer s k = s k) := by
  have hpos : ¬ Int.tdiv l.expiration Millisecond ≤ 0 := by
    have h1 : (0 : Int) < Millisecond := by decide
    have h2 : 0 ≤ l.expiration := le_trans (le_of_lt h1) hms
    rw [Int.tdiv_eq_ediv h2 (le_of_lt h1)]
    have h3 : 1 ≤ l.expiration / Millisecond := by
      rw [Int.le_ediv_iff_mul_le h1]
      simpa using hms
    exact not_le.mpr (lt_of_lt_of_le Int.one_pos h3)
  have hset : ∀ e, s l.key = some e → e.value = l.value →
      renew l redisServer s =
        s.set l.key
          { value := e.value, ttl := Int.tdiv l.expiration Millisecond * Millisecond } := by
    intro e he hv
    rw [renew_server]
    simp [evalRenewScript, GET, he, hv, PEXPIRE, hpos]
  have hsame : GET s l.key ≠ some l.value → renew l redisServer s = s := by
    intro hg
    rw [renew_server]
    simp [evalRenewScript, hg]
  refine ⟨hset, ?_, hsame, ?_, ?_⟩
  · intro e he hv hdiv
    rw [hset e he hv]
    have h2 : 0 ≤ l.expiration := le_trans (by decide) hms
    have h3 : Int.tdiv l.expiration Millisecond * Millisecond = l.expiration := by
      rw [Int.tdiv_eq_ediv h2 (by decide)]
      exact Int.ediv_mul_cancel (Int.dvd_of_emod_eq_zero hdiv)
    simp [Store.set, h3]
  · intro k
    by_cases hg : GET s l.key = some l.value
    · cases he : s l.key with
      | none => simp [GET, he] at hg
      | some e =>
        have hv : e.value = l.value := by simpa [GET, he] using hg
        rw [hset e he hv]
        by_cases hk : k = l.key
        · subst hk
          simp [GET, Store.set, he]
        · simp [GET, Store.set, hk]
    · rw [hsame hg]
  · intro k hk
    by_cases hg : GET s l.key = some l.value
    · cases he : s l.key with
      | none => simp [GET, he] at hg
      | some e =>
        have hv : e.value = l.value := by simpa [GET, he] using hg
        rw [hset e he hv]
        simp [Store.set, hk]
    · rw [hsame hg]

/-- C12 (amended) at a handle with a lease of five seconds that holds the lease
of `test-watchdog`, two and a half seconds after the acquisition, as in
`TestLock_WatchdogRenewal`. -/
theorem renew_extends_witness :
    renew
        { key := "lock:test-watchdog", value := "token-A", expiration := 5000000000,
          held := true, watchdogStop := .made, watchdogDone := .made, watchdogs := 1 }
        redisServer
        (Store.empty.set "lock:test-watchdog" { value := "token-A", ttl := 2500000000 })
        "lock:test-watchdog" = some { value := "token-A", ttl := 5000000000 } :=
  (renew_extends
    { key := "lock:test-watchdog", value := "token-A", expiration := 5000000000,
      held := true, watchdogStop := .made, watchdogDone := .made, watchdogs := 1 }
    (Store.empty.set "lock:test-watchdog" { value := "token-A", ttl := 2500000000 })
    (by decide)).2.1
    { value := "token-A", ttl := 2500000000 } (by decide) (by decide) (by decide)

/-! ## The watchdog loop -/

theorem watchdogLoop_returned (l : redisLock) (wakes : List Wake) (s : Store) :
    (watchdogLoop l wakes s).1 = wakes.any Wake.isStop := by
  induction wakes generalizing s with
  | nil => rfl
  | cons w rest ih =>
    cases w with
    | stop => simp [watchdogLoop, Wake.isStop]
    | tick rdb => simp [watchdogLoop, Wake.isStop, ih]

theorem watchdogLoop_store (l : redisLock) (wakes : List Wake) (s : Store) :
    (watchdogLoop l wakes s).2 =
      (wakes.takeWhile (fun w => !w.isStop)).foldl
        (fun s1 w => match w with
          | .tick rdb => renew l rdb s1
          | .stop => s1) s := by
  induction wakes generalizing s with
  | nil => rfl
  | cons w rest ih =>
    cases w with
    | stop => simp [watchdogLoop, Wake.isStop]
    | tick rdb => simp [watchdogLoop, Wake.isStop, ih]

theorem closeDone_fields (l l1 : redisLock) (h : closeDone l = some l1) :
    l1.key = l.key ∧ l1.value = l.value ∧ l1.held = l.held ∧
      l1.expiration = l.expiration := by
  unfold closeDone at h
  split at h
  · cases h
    simp
  · cases h

theorem watchdog_fields (l : redisLock) (wakes : List Wake) (s : Store) :
    (watchdog l wakes s).2.1.key = l.key ∧ (watchdog l wakes s).2.1.value = l.value ∧
      (watchdog l wakes s).2.1.held = l.held ∧
      (watchdog l wakes s).2.1.expiration = l.expiration := by
  unfold watchdog
  simp only []
  split
  · cases h : closeDone l with
    | none => simp
    | some l1 => simpa using closeDone_fields l l1 h
  · split
    · split
      · rename_i l1 h
        simpa using closeDone_fields l l1 h
      · simp
    · simp

/-- C13. Whatever the client answers to a renewal (a transport error, a
mismatch, a missing key, a success), `renew` hands nothing back but the store:
the step leaves the handle as it is, and a round trip that fails leaves the
store as it is too. The watchdog keeps `key`, `value`, `held` and `expiration`
of the handle. It returns only on a stop signal; how it ends is the same for
any two runs with the same order of ticks and stop signals, whatever the
renewals answered and whatever the store held; and every tick that comes
before the first stop signal is followed by its renewal. -/
theorem watchdog_ends_on_stop_only (l : redisLock) (wakes : List Wake) (s : Store) :
    (∀ rdb, (step (.renew rdb) (l, s)).1 = l) ∧
      (∀ e, renew l (unreachableServer e) s = s) ∧
      ((watchdog l wakes s).2.1.key = l.key ∧ (watchdog l wakes s).2.1.value = l.value ∧
        (watchdog l wakes s).2.1.held = l.held ∧
        (watchdog l wakes s).2.1.expiration = l.expiration) ∧
      ((watchdog l wakes s).1 = .returned () → Wake.stop ∈ wakes) ∧
      (∀ (wakes2 : List Wake) (s2 : Store),
        wakes2.map Wake.isStop = wakes.map Wake.isStop →
          (watchdog l wakes2 s2).1 = (watchdog l wakes s).1) ∧
      (watchdogLoop l wakes s).2 =
        (wakes.takeWhile (fun w => !w.isStop)).foldl
          (fun s1 w => match w with
            | .tick rdb => renew l rdb s1
            | .stop => s1) s := by
  have hany : ∀ ws : List Wake, ws.any Wake.isStop = (ws.map Wake.isStop).any id := by
    intro ws
    induction ws with
    | nil => rfl
    | cons w rest ih => simp [List.any_cons, ih]
  have hout : ∀ (ws : List Wake) (s1 : Store),
      (watchdog l ws s1).1 =
        if Int.tdiv l.expiration 2 ≤ 0 then .panicked
        else if ws.any Wake.isStop then
          (match closeDone l with
            | some _ => .returned ()
            | none => .panicked)
        else .blocked := by
    intro ws s1
    unfold watchdog
    simp only [watchdogLoop_returned]
    split
    · rfl
    · split
      · split <;> rfl
      · rfl
  refine ⟨fun _ => rfl, fun _ => rfl, watchdog_fields l wakes s, ?_, ?_,
    watchdogLoop_store l wakes s⟩
  · intro h
    rw [hout] at h
    split at h
    · cases h
    · split at h
      · rename_i hst
        rw [List.any_eq_true] at hst
        obtain ⟨w, hw, hstop⟩ := hst
        cases w with
        | stop => exact hw
        | tick rdb => simp [Wake.isStop] at hstop
      · cases h
  · intro wakes2 s2 hmap
    rw [hout, hout, hany wakes2, hany wakes, hmap]

/-! ## The states a handle goes through -/

theorem NewDistributedLock_settled (key : String) (expiration : Duration) :
    (NewDistributedLock key expiration).Settled :=
  Or.inl ⟨rfl, rfl, rfl, rfl⟩

theorem Settled_wired (l : redisLock) (hs : l.Settled) (hheld : l.held = true) :
    l.wired = true := by
  rcases hs with ⟨_, _, _, h⟩ | ⟨h1, h2, h3, _⟩ | ⟨h1, h2, _⟩
  · rw [hheld] at h
    cases h
  · simp [redisLock.wired, h1, h2, h3]
  · simp [redisLock.wired, h1, h2]

theorem Settled_stopped_watchdogs (l : redisLock) (hs : l.Settled) :
    l.stopped.watchdogs = 0 := by
  rcases hs with ⟨_, h2, h3, _⟩ | ⟨_, h2, h3, _⟩ | ⟨_, h2, h3⟩ <;>
    simp [redisLock.stopped, h2, h3]

theorem Lock_acquire_fields (l : redisLock) (uuid : String) (rdb : Cmdable) (s : Store)
    (h1 : l.held = false) (h2 : (Lock l uuid rdb s).2.1.held = true) :
    (Lock l uuid rdb s).2.1.watchdogs = l.watchdogs + 1 ∧
      (Lock l uuid rdb s).2.1.watchdogStop = .made ∧
      (Lock l uuid rdb s).2.1.watchdogDone = .made := by
  unfold Lock at h2 ⊢
  simp only [h1, Bool.false_eq_true, if_false] at h2 ⊢
  split at h2
  · simp [h1] at h2
  · rename_i herr
    split at h2
    · simp [h1] at h2
    · rename_i hval
      simp only [herr, hval]
      simp

theorem Lock_refused_fields (l : redisLock) (uuid : String) (rdb : Cmdable) (s : Store)
    (h2 : (Lock l uuid rdb s).2.1.held = l.held) :
    (Lock l uuid rdb s).2.1.watchdogs = l.watchdogs ∧
      (Lock l uuid rdb s).2.1.watchdogStop = l.watchdogStop ∧
      (Lock l uuid rdb s).2.1.watchdogDone = l.watchdogDone := by
  unfold Lock at h2 ⊢
  split
  · exact ⟨rfl, rfl, rfl⟩
  · rename_i hheld
    simp only [hheld, if_false] at h2
    simp only []
    split
    · exact ⟨rfl, rfl, rfl⟩
    · split
      · exact ⟨rfl, rfl, rfl⟩
      · rename_i herr hval
        simp only [herr, hval] at h2
        simp at h2

theorem Lock_settled (l : redisLock) (uuid : String) (rdb : Cmdable) (s : Store)
    (hs : l.Settled) : (Lock l uuid rdb s).2.1.Settled := by
  by_cases hh : (Lock l uuid rdb s).2.1.held = l.held
  · obtain ⟨h1, h2, h3⟩ := Lock_refused_fields l uuid rdb s hh
    unfold redisLock.Settled
    rw [h1, h2, h3, hh]
    exact hs
  · have hl : l.held = false := by
      by_contra hne
      have ht : l.held = true := by simpa using hne
      rw [Lock_of_held l uuid rdb s ht] at hh
      exact hh rfl
    have hl2 : (Lock l uuid rdb s).2.1.held = true := by
      rw [hl] at hh
      simpa using hh
    obtain ⟨h1, h2, h3⟩ := Lock_acquire_fields l uuid rdb s hl hl2
    have h0 : l.watchdogs = 0 := by
      rcases hs with ⟨_, _, h, _⟩ | ⟨_, _, _, h⟩ | ⟨_, _, h⟩
      · exact h
      · rw [hl] at h
        cases h
      · exact h
    refine Or.inr (Or.inl ⟨h2, h3, ?_, hl2⟩)
    rw [h1, h0]

theorem Unlock_settled (l : redisLock) (rdb : Cmdable) (s : Store)
    (hs : l.Settled) : (Unlock l rdb s).2.1.Settled := by
  by_cases hheld : l.held = true
  · rw [Unlock_held_wired l rdb s hheld (Settled_wired l hs hheld)]
    have h0 := Settled_stopped_watchdogs l hs
    rcases unlockRoundTrip_handle l.stopped rdb s with h | h
    · rw [h]
      exact Or.inr (Or.inr ⟨rfl, rfl, h0⟩)
    · rw [h]
      exact Or.inr (Or.inr ⟨rfl, rfl, h0⟩)
  · have hf : l.held = false := by simpa using hheld
    rw [Unlock_of_not_held l rdb s hf]
    exact hs

theorem step_settled (st : Step) (c : redisLock × Store) (hs : c.1.Settled) :
    (step st c).1.Settled := by
  cases st with
  | lock uuid rdb => exact Lock_settled c.1 uuid rdb c.2 hs
  | unlock rdb => exact Unlock_settled c.1 rdb c.2 hs
  | renew rdb => exact hs
  | env s => exact hs

theorem run_settled (steps : List Step) (c : redisLock × Store) (hs : c.1.Settled) :
    (run steps c).1.Settled := by
  induction steps generalizing c with
  | nil => exact hs
  | cons st rest ih => exact ih (step st c) (step_settled st c hs)

theorem Unlock_watchdogs_le (l : redisLock) (rdb : Cmdable) (s : Store) :
    (Unlock l rdb s).2.1.watchdogs ≤ l.watchdogs := by
  unfold Unlock
  split
  · exact le_refl _
  · split
    · exact le_refl _
    · rename_i l1 hl1
      obtain ⟨-, -, -, -, -, -, hw1⟩ := closeStop_fields l l1 hl1
      split
      · exact le_of_eq hw1
      · rename_i l2 hl2
        have hw2 : l2.watchdogs ≤ l1.watchdogs := by
          unfold awaitDone at hl2
          split at hl2
          · cases hl2
            exact le_refl _
          · split at hl2
            · cases hl2
            · cases hl2
              exact Nat.sub_le _ _
          · cases hl2
        have h3 : (unlockRoundTrip l2 rdb s).2.1.watchdogs = l2.watchdogs := by
          rcases unlockRoundTrip_handle l2 rdb s with h | h <;> rw [h]
        rw [h3, ← hw1]
        exact hw2

/-- C14. In every state reached from a fresh handle by `Lock`, `Unlock` and
renewal steps (and changes made to the store by others): when `held` is false
no watchdog of the handle is running, and at most one ever is. A step that
starts a watchdog is a `Lock` that takes `held` from false to true; such a
`Lock` starts exactly one, on freshly made channels; and a step that takes
`held` from true to false leaves no watchdog running, the stop and done
channels both closed. -/
theorem watchdog_only_while_held (name : String) (d : Duration) (s0 : Store)
    (steps : List Step) (st : Step) :
    let c := run steps (NewDistributedLock name d, s0)
    let c1 := step st c
    (c.1.held = false → c.1.watchdogs = 0) ∧
      c.1.watchdogs ≤ 1 ∧
      (c.1.watchdogs < c1.1.watchdogs →
        (∃ uuid rdb, st = .lock uuid rdb) ∧ c.1.held = false ∧ c1.1.held = true) ∧
      (c.1.held = false → c1.1.held = true →
        c1.1.watchdogs = 1 ∧ c1.1.watchdogStop = .made ∧ c1.1.watchdogDone = .made) ∧
      (c.1.held = true → c1.1.held = false →
        c1.1.watchdogs = 0 ∧ c1.1.watchdogStop = .closed ∧
          c1.1.watchdogDone = .closed) := by
  intro c c1
  have hs : c.1.Settled :=
    run_settled steps (NewDistributedLock name d, s0) (NewDistributedLock_settled name d)
  have hs1 : c1.1.Settled := step_settled st c hs
  have h0 : c.1.held = false → c.1.watchdogs = 0 := by
    intro hf
    rcases hs with ⟨_, _, h, _⟩ | ⟨_, _, _, h⟩ | ⟨_, _, h⟩
    · exact h
    · rw [hf] at h
      cases h
    · exact h
  refine ⟨h0, ?_, ?_, ?_, ?_⟩
  · rcases hs with ⟨_, _, h, _⟩ | ⟨_, _, h, _⟩ | ⟨_, _, h⟩ <;> omega
  · intro hlt
    cases st with
    | lock uuid rdb =>
      have hlt2 : c.1.watchdogs < (Lock c.1 uuid rdb c.2).2.1.watchdogs := hlt
      by_cases hh : (Lock c.1 uuid rdb c.2).2.1.held = c.1.held
      · rw [(Lock_refused_fields c.1 uuid rdb c.2 hh).1] at hlt2
        exact absurd hlt2 (lt_irrefl _)
      · have hl : c.1.held = false := by
          by_contra hne
          have ht : c.1.held = true := by simpa using hne
          rw [Lock_of_held c.1 uuid rdb c.2 ht] at hh
          exact hh rfl
        refine ⟨⟨uuid, rdb, rfl⟩, hl, ?_⟩
        rw [hl] at hh
        simpa using hh
    | unlock rdb =>
      have hle := Unlock_watchdogs_le c.1 rdb c.2
      have hlt2 : c.1.watchdogs < (Unlock c.1 rdb c.2).2.1.watchdogs := hlt
      omega
    | renew rdb => exact absurd hlt (lt_irrefl _)
    | env s => exact absurd hlt (lt_irrefl _)
  · intro hf ht
    rcases hs1 with ⟨_, _, _, h⟩ | ⟨h1, h2, h3, _⟩ | ⟨h1, h2, h3⟩
    · rw [ht] at h
      cases h
    · exact ⟨h3, h1, h2⟩
    · cases st with
      | lock uuid rdb =>
        obtain ⟨_, h4, _⟩ := Lock_acquire_fields c.1 uuid rdb c.2 hf ht
        have h5 : (Lock c.1 uuid rdb c.2).2.1.watchdogStop = .closed := h1
        rw [h4] at h5
        cases h5
      | unlock rdb =>
        have ht2 : (Unlock c.1 rdb c.2).2.1.held = true := ht
        rw [Unlock_of_not_held c.1 rdb c.2 hf, hf] at ht2
        cases ht2
      | renew rdb =>
        have ht2 : c.1.held = true := ht
        rw [hf] at ht2
        cases ht2
      | env s =>
        have ht2 : c.1.held = true := ht
        rw [hf] at ht2
        cases ht2
  · intro ht hf
    cases st with
    | lock uuid rdb =>
      have hf2 : (Lock c.1 uuid rdb c.2).2.1.held = false := hf
      rw [Lock_of_held c.1 uuid rdb c.2 ht, ht] at hf2
      cases hf2
    | unlock rdb =>
      have hu := Unlock_held_wired c.1 rdb c.2 ht (Settled_wired c.1 hs ht)
      have h0s := Settled_stopped_watchdogs c.1 hs
      have hc1 : c1.1 = (unlockRoundTrip c.1.stopped rdb c.2).2.1 := by
        show (Unlock c.1 rdb c.2).2.1 = _
        rw [hu]
      rcases unlockRoundTrip_handle c.1.stopped rdb c.2 with h | h
      · rw [hc1, h]
        exact ⟨h0s, rfl, rfl⟩
      · rw [hc1, h]
        exact ⟨h0s, rfl, rfl⟩
    | renew rdb =>
      have hf2 : c.1.held = false := hf
      rw [ht] at hf2
      cases hf2
    | env s =>
      have hf2 : c.1.held = false := hf
      rw [ht] at hf2
      cases hf2

/-! ## Stopping the watchdog before the delete -/

theorem closeDone_closed (l l1 : redisLock) (h : closeDone l = some l1) :
    l1.watchdogDone = .closed ∧ l1.watchdogStop = l.watchdogStop := by
  unfold closeDone at h
  split at h
  · cases h
    exact ⟨rfl, rfl⟩
  · cases h

theorem closeDone_getD_closed (l : redisLock) (h : l.watchdogDone = .closed) :
    ((closeDone l).getD l).watchdogDone = .closed := by
  simp [closeDone, h]

theorem unlockRoundTrip_done (l : redisLock) (rdb : Cmdable) (s : Store) :
    (unlockRoundTrip l rdb s).2.1.watchdogDone = l.watchdogDone := by
  rcases unlockRoundTrip_handle l rdb s with h | h <;> rw [h]

theorem moveUnlock_inv (rdb : Cmdable) (c c1 : Conc) (h : moveUnlock rdb c = some c1)
    (hi : c.Inv) : c1.Inv := by
  obtain ⟨h1, h2, h3, h4⟩ := hi
  unfold moveUnlock at h
  split at h
  · split at h <;> cases h <;> exact ⟨h1, by simp, h3, h4⟩
  · split at h
    · rename_i l1 hc
      cases h
      obtain ⟨-, -, -, -, -, hd, -⟩ := closeStop_fields _ _ hc
      refine ⟨?_, by simp, ?_, h4⟩
      · intro hx
        exact h1 (by rw [← hd]; exact hx)
      · intro hx
        show l1.watchdogDone = .closed
        rw [hd]
        exact h3 hx
    · cases h
  · split at h
    · rename_i hd
      cases h
      exact ⟨h1, fun _ => hd, h3, h4⟩
    · cases h
  · rename_i hs
    have hd := h2 hs
    cases h
    have hd1 := unlockRoundTrip_done c.lock rdb c.store
    refine ⟨?_, by simp, ?_, ?_⟩
    · intro _
      exact h1 hd
    · intro _
      show (unlockRoundTrip c.lock rdb c.store).2.1.watchdogDone = .closed
      rw [hd1]
      exact hd
    · show renewAfterDelete (Event.deleteCall :: c.events) = false
      simp [renewAfterDelete, Event.isRenewal, h4]
  · cases h

theorem move_inv (m : Move) (c c1 : Conc) (h : move m c = some c1) (hi : c.Inv) :
    c1.Inv := by
  cases m with
  | unlock rdb => exact moveUnlock_inv rdb c c1 h hi
  | start =>
    obtain ⟨h1, h2, h3, h4⟩ := hi
    simp only [move] at h
    split at h
    · split at h
      · cases h
        refine ⟨fun _ => rfl, ?_, ?_, h4⟩
        · intro hs
          exact closeDone_getD_closed _ (h2 hs)
        · intro hx
          exact closeDone_getD_closed _ (h3 hx)
      · rename_i hw _
        cases h
        refine ⟨?_, h2, h3, h4⟩
        intro hd
        have := h1 hd
        rw [hw] at this
        cases this
    · cases h
  | tick =>
    obtain ⟨h1, h2, h3, h4⟩ := hi
    simp only [move] at h
    split at h
    · rename_i hw
      cases h
      have hnd : c.lock.watchdogDone ≠ .closed := by
        intro hd
        have := h1 hd
        rw [hw] at this
        cases this
      refine ⟨fun hd => absurd hd hnd, h2, fun _ => by
        rename_i hx
        exact absurd (h3 (by simpa using hx)) hnd, ?_⟩
      have hno : Event.deleteCall ∉ c.events := fun hx => hnd (h3 hx)
      show renewAfterDelete (Event.renewBegins :: c.events) = false
      simp [renewAfterDelete, h4, hno]
    · cases h
  | renewTrip rdb =>
    obtain ⟨h1, h2, h3, h4⟩ := hi
    simp only [move] at h
    split at h
    · rename_i hw
      cases h
      have hnd : c.lock.watchdogDone ≠ .closed := by
        intro hd
        have := h1 hd
        rw [hw] at this
        cases this
      refine ⟨fun hd => absurd hd hnd, h2, fun _ => by
        rename_i hx
        exact absurd (h3 (by simpa using hx)) hnd, ?_⟩
      have hno : Event.deleteCall ∉ c.events := fun hx => hnd (h3 hx)
      show renewAfterDelete (Event.renewCall :: c.events) = false
      simp [renewAfterDelete, h4, hno]
    · cases h
  | stop =>
    obtain ⟨h1, h2, h3, h4⟩ := hi
    simp only [move] at h
    split at h
    · split at h
      · rename_i l1 hc
        cases h
        obtain ⟨hd, -⟩ := closeDone_closed _ _ hc
        exact ⟨fun _ => rfl, fun _ => hd, fun _ => hd, h4⟩
      · cases h
    · cases h
  | env s =>
    simp only [move] at h
    cases h
    exact hi

theorem exec_inv (moves : List Move) (c c1 : Conc) (h : exec moves c = some c1)
    (hi : c.Inv) : c1.Inv := by
  induction moves generalizing c with
  | nil =>
    simp only [exec] at h
    cases h
    exact hi
  | cons m rest ih =>
    simp only [exec] at h
    split at h
    · rename_i c2 hm
      exact ih c2 h (move_inv m c c2 hm hi)
    · cases h

theorem exec_append (ms1 ms2 : List Move) (c : Conc) :
    exec (ms1 ++ ms2) c = (exec ms1 c).bind (exec ms2) := by
  induction ms1 generalizing c with
  | nil => rfl
  | cons m rest ih =>
    simp only [List.cons_append, exec]
    cases move m c with
    | none => rfl
    | some c1 => exact ih c1

/-- The call of `Unlock` as one schedule: on a held handle whose watchdog
waits in its `select`, the statements of `Unlock` with the return of the
watchdog between the `select` and the receive leave the handle and the store
that `Unlock` gives, with the store call as the only event. -/
theorem Unlock_as_moves (c0 : Conc) (rdb : Cmdable) (hat : c0.unlockAt = .entry)
    (hheld : c0.lock.held = true) (hstop : c0.lock.watchdogStop ≠ .nil)
    (hdone : c0.lock.watchdogDone = .made) (hn : 0 < c0.lock.watchdogs)
    (hw : c0.watchdogAt = .waiting) :
    ∃ c1, exec [.unlock rdb, .unlock rdb, .stop, .unlock rdb, .unlock rdb] c0 = some c1 ∧
      c1.unlockAt = .ended ∧ c1.watchdogAt = .gone ∧
      (c1.lock, c1.store) = (Unlock c0.lock rdb c0.store).2 ∧
      c1.events = .deleteCall :: c0.events := by
  obtain ⟨l, s, ua, wa, ev⟩ := c0
  obtain ⟨key, value, expiration, held, stop, done, n⟩ := l
  simp only at hat hheld hstop hdone hn hw
  subst hat hheld hdone hw
  have hn0 : n ≠ 0 := Nat.pos_iff_ne_zero.mp hn
  refine
    ⟨{ lock :=
          (unlockRoundTrip
            { key := key, value := value, expiration := expiration, held := true,
              watchdogStop := .closed, watchdogDone := .closed, watchdogs := n - 1 }
            rdb s).2.1,
        store :=
          (unlockRoundTrip
            { key := key, value := value, expiration := expiration, held := true,
              watchdogStop := .closed, watchdogDone := .closed, watchdogs := n - 1 }
            rdb s).2.2,
        unlockAt := .ended,
        watchdogAt := .gone,
        events := .deleteCall :: ev }, ?_, rfl, rfl, ?_, rfl⟩
  · cases stop with
    | nil => exact absurd rfl hstop
    | made => simp [exec, move, moveUnlock, closeStop, closeDone]
    | closed => simp [exec, move, moveUnlock, closeStop, closeDone]
  · cases stop with
    | nil => exact absurd rfl hstop
    | made => simp [Unlock, closeStop, awaitDone, hn0]
    | closed => simp [Unlock, closeStop, awaitDone, hn0]

/-- C15. A call of `Unlock` on a handle and the watchdog of the acquisition
run side by side, from the entry of `Unlock`, with the done channel closed by
nobody but the watchdog. In every execution, under every schedule and with any
behaviour of the client and of the store: whenever `Unlock` stands before its
compare-and-delete store call, and whenever that call has been issued, the
done channel is closed and the watchdog has returned; no event of a renewal
(the watchdog calling `renew`, `renew` issuing its store call) is recorded
after the store call of `Unlock`; while the done channel is not closed the
receive of `Unlock` cannot go through; and once the watchdog has returned it
makes no move. On a held handle whose watchdog waits in its loop, the schedule
that lets the watchdog return between the `select` and the receive of `Unlock`
ends with the handle and the store the method `Unlock` gives. -/
theorem no_renewal_after_delete (c0 c : Conc) (moves : List Move)
    (hat : c0.unlockAt = .entry) (hev : c0.events = [])
    (hdone : c0.lock.watchdogDone = .closed → c0.watchdogAt = .gone)
    (hexec : exec moves c0 = some c) :
    (c.unlockAt = .script ∨ Event.deleteCall ∈ c.events →
        c.lock.watchdogDone = .closed ∧ c.watchdogAt = .gone) ∧
      renewAfterDelete c.events = false ∧
      (c.unlockAt = .receive → c.lock.watchdogDone ≠ .closed →
        ∀ rdb, move (.unlock rdb) c = none) ∧
      (c.watchdogAt = .gone →
        move .start c = none ∧ move .tick c = none ∧ move .stop c = none ∧
          ∀ rdb, move (.renewTrip rdb) c = none) ∧
      (c0.lock.held = true → c0.lock.watchdogStop ≠ .nil →
        c0.lock.watchdogDone = .made → 0 < c0.lock.watchdogs →
        c0.watchdogAt = .waiting →
        ∀ rdb, ∃ c1,
          exec [.unlock rdb, .unlock rdb, .stop, .unlock rdb, .unlock rdb] c0 = some c1 ∧
            c1.unlockAt = .ended ∧
            (c1.lock, c1.store) = (Unlock c0.lock rdb c0.store).2 ∧
            c1.events = [.deleteCall]) := by
  have hi0 : c0.Inv := by
    refine ⟨hdone, ?_, ?_, ?_⟩
    · intro h
      rw [hat] at h
      cases h
    · intro h
      rw [hev] at h
      cases h
    · rw [hev]
      rfl
  obtain ⟨h1, h2, h3, h4⟩ := exec_inv moves c0 c hexec hi0
  refine ⟨?_, h4, ?_, ?_, ?_⟩
  · rintro (h | h)
    · exact ⟨h2 h, h1 (h2 h)⟩
    · exact ⟨h3 h, h1 (h3 h)⟩
  · intro hr hd rdb
    simp [move, moveUnlock, hr, hd]
  · intro hg
    simp [move, hg]
  · intro hheld hstop hd hn hw rdb
    obtain ⟨c1, e1, e2, -, e4, e5⟩ := Unlock_as_moves c0 rdb hat hheld hstop hd hn hw
    refine ⟨c1, e1, e2, e4, ?_⟩
    rw [e5, hev]

/-- C15 at a handle that has just acquired the lease of `test-basic`: the
watchdog starts, `Unlock` closes the stop channel, the watchdog still makes
one renewal before it takes the stop case and returns, and only then `Unlock`
passes its receive and issues the delete. -/
theorem no_renewal_after_delete_witness :
    ∃ c : Conc,
      exec
        [.start, .unlock redisServer, .unlock redisServer, .tick, .renewTrip redisServer,
          .stop, .unlock redisServer, .unlock redisServer]
        { lock := (Lock (NewDistributedLock "test-basic" 5000000000) "token-A" redisServer
            Store.empty).2.1
          store := Store.empty.set "lock:test-basic"
            { value := "token-A", ttl := 5000000000 }
          unlockAt := .entry
          watchdogAt := .starting
          events := [] } = some c ∧
      c.events = [.deleteCall, .renewCall, .renewBegins] ∧
      renewAfterDelete c.events = false :=
  ⟨_, rfl, rfl,
    (no_renewal_after_delete
      { lock := (Lock (NewDistributedLock "test-basic" 5000000000) "token-A" redisServer
          Store.empty).2.1
        store := Store.empty.set "lock:test-basic"
          { value := "token-A", ttl := 5000000000 }
        unlockAt := .entry
        watchdogAt := .starting
        events := [] }
      _
      [.start, .unlock redisServer, .unlock redisServer, .tick, .renewTrip redisServer,
        .stop, .unlock redisServer, .unlock redisServer]
      rfl rfl (by decide) rfl).2.1⟩

/-- C16. On a handle with `held = true` whose stop and done channels are both
closed (the stop signal was sent and the watchdog has finished, as after an
`Unlock` that failed), `Unlock` takes the receive case of its `select` and
closes nothing, passes the receive on the done channel, and goes on to its
compare-and-delete round trip with the handle as it is. The call does not
block, and it panics only if the reply is a value that is not an `int64`; on
a reply from the store, or a failed round trip, it returns. -/
theorem Unlock_again_after_stop (l : redisLock) (rdb : Cmdable) (s : Store)
    (hheld : l.held = true) (hstop : l.watchdogStop = .closed)
    (hdone : l.watchdogDone = .closed) :
    closeStop l = some l ∧ awaitDone l = some l ∧
      Unlock l rdb s = unlockRoundTrip l rdb s ∧
      (Unlock l rdb s).2.1.watchdogStop = .closed ∧
      (Unlock l rdb s).1 ≠ .blocked ∧
      ((Unlock l rdb s).1 = .panicked →
        ∃ v, (rdb.Run .unlockScript [l.key] [.str l.value] s).1.val = some (.other v)) ∧
      (∃ err, (Unlock l redisServer s).1 = .returned err) ∧
      (∀ e, e.isNil = false →
        (Unlock l (unreachableServer e) s).1 = .returned (some e)) := by
  have hc : closeStop l = some l := by simp [closeStop, hstop]
  have ha : awaitDone l = some l := by simp [awaitDone, hdone]
  have hu : ∀ rdb2 s2, Unlock l rdb2 s2 = unlockRoundTrip l rdb2 s2 := by
    intro rdb2 s2
    simp [Unlock, hheld, hc, ha]
  refine ⟨hc, ha, hu rdb s, ?_, ?_, ?_, ?_, ?_⟩
  · rw [hu]
    rcases unlockRoundTrip_handle l rdb s with h | h <;> rw [h] <;> exact hstop
  · rw [hu]
    unfold unlockRoundTrip
    simp only []
    split
    · simp
    · split <;> simp
  · rw [hu]
    unfold unlockRoundTrip
    simp only []
    split
    · simp
    · split
      · simp
      · rename_i v hv
        intro _
        exact ⟨v, hv⟩
      · simp
  · rw [hu]
    by_cases hg : GET s l.key = some l.value
    · exact ⟨none, by rw [unlockRoundTrip_own l s hg]⟩
    · exact ⟨_, by rw [unlockRoundTrip_mismatch l s hg]⟩
  · intro e he
    rw [hu]
    simp [unlockRoundTrip, unreachableServer, he]

/-- C16 at the handle an `Unlock` that failed on a mismatch leaves behind (the
handle of C1): the second `Unlock` goes to its round trip. -/
theorem Unlock_again_after_stop_witness :
    Unlock
        (Unlock
          (Lock (NewDistributedLock "job" 5000000000) "token-A" redisServer
            Store.empty).2.1
          redisServer
          (Store.empty.set "lock:job" { value := "token-B", ttl := 5000000000 })).2.1
        redisServer (Store.empty.set "lock:job" { value := "token-A", ttl := 1 }) =
      unlockRoundTrip
        (Unlock
          (Lock (NewDistributedLock "job" 5000000000) "token-A" redisServer
            Store.empty).2.1
          redisServer
          (Store.empty.set "lock:job" { value := "token-B", ttl := 5000000000 })).2.1
        redisServer (Store.empty.set "lock:job" { value := "token-A", ttl := 1 }) :=
  (Unlock_again_after_stop
    (Unlock
      (Lock (NewDistributedLock "job" 5000000000) "token-A" redisServer
        Store.empty).2.1
      redisServer
      (Store.empty.set "lock:job" { value := "token-B", ttl := 5000000000 })).2.1
    redisServer (Store.empty.set "lock:job" { value := "token-A", ttl := 1 })
    (by decide) (by decide) (by decide)).2.2.1

/-! ## The lease key -/

theorem lock_key_injective (n1 n2 : String) (h : "lock:" ++ n1 = "lock:" ++ n2) :
    n1 = n2 := by
  have hd := congrArg String.data h
  rw [String.data_append, String.data_append] at hd
  exact String.ext (List.append_cancel_left hd)

/-- C17. `NewDistributedLock` gives a handle with `held = false` whose key is
`lock:` followed by the resource name. Two handles made for different names
have different keys, and from a store that holds neither key the `Lock` calls
of both return `(true, nil)`, in either order. -/
theorem NewDistributedLock_keys (n1 n2 : String) (d1 d2 : Duration) (u1 u2 : String)
    (s : Store) (hne : n1 ≠ n2)
    (hs1 : s ("lock:" ++ n1) = none) (hs2 : s ("lock:" ++ n2) = none) :
    (NewDistributedLock n1 d1).held = false ∧
      (NewDistributedLock n1 d1).key = "lock:" ++ n1 ∧
      (NewDistributedLock n1 d1).key ≠ (NewDistributedLock n2 d2).key ∧
      ((Lock (NewDistributedLock n1 d1) u1 redisServer s).1 = (true, none) ∧
        (Lock (NewDistributedLock n2 d2) u2 redisServer
          (Lock (NewDistributedLock n1 d1) u1 redisServer s).2.2).1 = (true, none)) ∧
      ((Lock (NewDistributedLock n2 d2) u2 redisServer s).1 = (true, none) ∧
        (Lock (NewDistributedLock n1 d1) u1 redisServer
          (Lock (NewDistributedLock n2 d2) u2 redisServer s).2.2).1 = (true, none)) := by
  have hk : "lock:" ++ n1 ≠ "lock:" ++ n2 := fun h => hne (lock_key_injective n1 n2 h)
  have hk2 : "lock:" ++ n2 ≠ "lock:" ++ n1 := fun h => hk h.symm
  refine ⟨rfl, rfl, hk, ?_, ?_⟩
  · simp [Lock, NewDistributedLock, redisServer, SETNX, hs1, hs2, Store.set, hk2]
  · simp [Lock, NewDistributedLock, redisServer, SETNX, hs1, hs2, Store.set, hk]

/-- C17 at the two handles of `TestLock_MultipleLocksDifferentKeys`. -/
theorem NewDistributedLock_keys_witness :
    (NewDistributedLock "test-key1" 5000000000).held = false ∧
      (NewDistributedLock "test-key1" 5000000000).key = "lock:test-key1" ∧
      (NewDistributedLock "test-key1" 5000000000).key ≠
        (NewDistributedLock "test-key2" 5000000000).key ∧
      ((Lock (NewDistributedLock "test-key1" 5000000000) "u1" redisServer
          Store.empty).1 = (true, none) ∧
        (Lock (NewDistributedLock "test-key2" 5000000000) "u2" redisServer
          (Lock (NewDistributedLock "test-key1" 5000000000) "u1" redisServer
            Store.empty).2.2).1 = (true, none)) ∧
      ((Lock (NewDistributedLock "test-key2" 5000000000) "u2" redisServer
          Store.empty).1 = (true, none) ∧
        (Lock (NewDistributedLock "test-key1" 5000000000) "u1" redisServer
          (Lock (NewDistributedLock "test-key2" 5000000000) "u2" redisServer
            Store.empty).2.2).1 = (true, none)) :=
  NewDistributedLock_keys "test-key1" "test-key2" 5000000000 5000000000 "u1" "u2"
    Store.empty (by decide) (by decide) (by decide)

/-! ## After a release that failed -/

theorem unlockRoundTrip_failed (l : redisLock) (rdb : Cmdable) (s : Store) (e : GoError)
    (h : (unlockRoundTrip l rdb s).1 = .returned (some e)) :
    (unlockRoundTrip l rdb s).2.1 = l := by
  unfold unlockRoundTrip at h ⊢
  simp only [] at h ⊢
  generalize rdb.Run .unlockScript [l.key] [.str l.value] s = r at h ⊢
  obtain ⟨⟨val, err⟩, s1⟩ := r
  simp only [] at h ⊢
  by_cases hany : err.any (fun e => !e.isNil) = true
  · rw [if_pos hany]
  · rw [if_neg hany] at h ⊢
    cases val with
    | none => simp at h
    | some v =>
      cases v with
      | other x => simp at h
      | int n =>
        by_cases hn : n = 0
        · subst hn
          rfl
        · simp [hn] at h

theorem stopped_of_closed (l : redisLock) (h1 : l.watchdogStop = .closed)
    (h2 : l.watchdogDone = .closed) : l.stopped = l := by
  obtain ⟨key, value, expiration, held, stop, done, n⟩ := l
  simp only at h1 h2
  subst h1 h2
  simp [redisLock.stopped]

theorem step_after_failure (l : redisLock) (hheld : l.held = true)
    (h1 : l.watchdogStop = .closed) (h2 : l.watchdogDone = .closed)
    (st : Step) (s : Store) :
    (step st (l, s)).1 = l ∨
      ((∃ rdb, st = .unlock rdb) ∧ (step st (l, s)).1.held = false) := by
  cases st with
  | lock uuid rdb =>
    left
    show (Lock l uuid rdb s).2.1 = l
    rw [Lock_of_held l uuid rdb s hheld]
  | unlock rdb =>
    have hw : l.wired = true := by simp [redisLock.wired, h1, h2]
    have hu : (step (.unlock rdb) (l, s)).1 = (unlockRoundTrip l rdb s).2.1 := by
      show (Unlock l rdb s).2.1 = _
      rw [Unlock_held_wired l rdb s hheld hw, stopped_of_closed l h1 h2]
    rcases unlockRoundTrip_handle l rdb s with h | h
    · left
      rw [hu, h]
    · right
      refine ⟨⟨rdb, rfl⟩, ?_⟩
      rw [hu, h]
  | renew rdb => exact Or.inl rfl
  | env s2 => exact Or.inl rfl

theorem run_after_failure (l : redisLock) (hheld : l.held = true)
    (h1 : l.watchdogStop = .closed) (h2 : l.watchdogDone = .closed)
    (steps : List Step) (s : Store) :
    (run steps (l, s)).1 = l ∨
      ∃ pre rdb post, steps = pre ++ Step.unlock rdb :: post ∧
        (run pre (l, s)).1 = l ∧
        (step (.unlock rdb) (run pre (l, s))).1.held = false := by
  induction steps generalizing s with
  | nil => exact Or.inl rfl
  | cons st rest ih =>
    rcases step_after_failure l hheld h1 h2 st s with h | ⟨⟨rdb, hst⟩, hf⟩
    · have hc : step st (l, s) = (l, (step st (l, s)).2) := Prod.ext h rfl
      have hrun : ∀ xs : List Step, run (st :: xs) (l, s) = run xs (l, (step st (l, s)).2) := by
        intro xs
        show run xs (step st (l, s)) = _
        rw [← hc]
      rcases ih (step st (l, s)).2 with h3 | ⟨pre, rdb, post, h3, h4, h5⟩
      · left
        rw [hrun, h3]
      · right
        refine ⟨st :: pre, rdb, post, by rw [h3]; rfl, ?_, ?_⟩
        · rw [hrun, h4]
        · rw [hrun]
          exact h5
    · right
      subst hst
      exact ⟨[], rdb, rest, rfl, rfl, hf⟩

/-- C31. Take a handle with `held = true` in one of the states reached through
the interface, on which `Unlock` fails: it returns an error, that of a failed
round trip or the mismatch error. The handle is left with `held = true`, its
watchdog stopped (none running, both channels closed) and the rest as before.
Every `Lock` on the handle so left returns `(true, nil)` and changes neither
the handle nor the store, whatever the client would answer: no round trip, no
watchdog started. Every later step leaves the handle exactly so, unless it is
an `Unlock` that clears `held`; and so does every sequence of later steps up
to the first such `Unlock`. So `held = true` goes with no watchdog renewing
the lease. -/
theorem held_without_watchdog (l : redisLock) (rdb : Cmdable) (s : Store) (e : GoError)
    (hheld : l.held = true) (hs : l.Settled)
    (hfail : (Unlock l rdb s).1 = .returned (some e)) :
    (Unlock l rdb s).2.1 = l.stopped ∧
      l.stopped.held = true ∧ l.stopped.watchdogs = 0 ∧
      l.stopped.watchdogStop = .closed ∧ l.stopped.watchdogDone = .closed ∧
      l.stopped.key = l.key ∧ l.stopped.value = l.value ∧
      (∀ (uuid : String) (rdb2 : Cmdable) (s2 : Store),
        Lock l.stopped uuid rdb2 s2 = ((true, none), l.stopped, s2)) ∧
      (∀ (st : Step) (s2 : Store),
        (step st (l.stopped, s2)).1 = l.stopped ∨
          ((∃ rdb2, st = .unlock rdb2) ∧ (step st (l.stopped, s2)).1.held = false)) ∧
      (∀ (steps : List Step) (s2 : Store),
        (run steps (l.stopped, s2)).1 = l.stopped ∨
          ∃ pre rdb2 post, steps = pre ++ Step.unlock rdb2 :: post ∧
            (run pre (l.stopped, s2)).1 = l.stopped ∧
            (step (.unlock rdb2) (run pre (l.stopped, s2))).1.held = false) := by
  have hu := Unlock_held_wired l rdb s hheld (Settled_wired l hs hheld)
  have hh : l.stopped.held = true := hheld
  refine ⟨?_, hh, Settled_stopped_watchdogs l hs, rfl, rfl, rfl, rfl, ?_, ?_, ?_⟩
  · rw [hu] at hfail ⊢
    exact unlockRoundTrip_failed l.stopped rdb s e hfail
  · intro uuid rdb2 s2
    exact Lock_of_held l.stopped uuid rdb2 s2 hh
  · intro st s2
    exact step_after_failure l.stopped hh rfl rfl st s2
  · intro steps s2
    exact run_after_failure l.stopped hh rfl rfl steps s2

/-- C31 at a handle that holds the lease of `job` when the store cannot be
reached: `Unlock` fails, the handle stays held with no watchdog, and a `Lock`
on it, even with the lease gone from the store, returns `(true, nil)` and
creates nothing. -/
theorem held_without_watchdog_witness :
    (Unlock
        { key := "lock:job", value := "token-A", expiration := 5000000000, held := true,
          watchdogStop := .made, watchdogDone := .made, watchdogs := 1 }
        (unreachableServer (errors_New "i/o timeout"))
        (Store.empty.set "lock:job" { value := "token-A", ttl := 5000000000 })).2.1 =
        { key := "lock:job", value := "token-A", expiration := 5000000000, held := true,
          watchdogStop := .closed, watchdogDone := .closed, watchdogs := 0 } ∧
      Lock
        { key := "lock:job", value := "token-A", expiration := 5000000000, held := true,
          watchdogStop := .closed, watchdogDone := .closed, watchdogs := 0 }
        "token-C" redisServer Store.empty =
        ((true, none),
          { key := "lock:job", value := "token-A", expiration := 5000000000, held := true,
            watchdogStop := .closed, watchdogDone := .closed, watchdogs := 0 },
          Store.empty) :=
  have h := held_without_watchdog
    { key := "lock:job", value := "token-A", expiration := 5000000000, held := true,
      watchdogStop := .made, watchdogDone := .made, watchdogs := 1 }
    (unreachableServer (errors_New "i/o timeout"))
    (Store.empty.set "lock:job" { value := "token-A", ttl := 5000000000 })
    (errors_New "i/o timeout") (by decide)
    (Or.inr (Or.inl ⟨rfl, rfl, rfl, rfl⟩)) (by decide)
  ⟨h.1, h.2.2.2.2.2.2.2.1 "token-C" redisServer Store.empty⟩

end Gobase.Redis

namespace Gobase.Arrayutil

variable {T : Type} [DecidableEq T]

/-! ## The counting map -/

theorem foldl_incr (b : List T) (counter : Counter T) (x : T) :
    (b.foldl Counter.incr counter) x = counter x + (b.count x : Int) := by
  induction b generalizing counter with
  | nil => simp
  | cons v rest ih =>
    rw [List.foldl_cons, ih, List.count_cons]
    by_cases h : x = v
    · subst h
      simp [Counter.incr]
      omega
    · have h2 : ¬ v = x := fun e => h e.symm
      simp [Counter.incr, h, h2]

theorem countAll_apply (b : List T) (x : T) : countAll b x = (b.count x : Int) := by
  simp [countAll, foldl_incr]

theorem countAll_cons (v : T) (b : List T) :
    countAll (v :: b) = (countAll b).incr v := by
  funext x
  rw [countAll_apply, List.count_cons]
  by_cases h : x = v
  · subst h
    simp [Counter.incr, countAll_apply]
  · have h2 : ¬ v = x := fun e => h e.symm
    simp [Counter.incr, countAll_apply, h, h2]

theorem incr_decr (counter : Counter T) (v : T) : (counter.incr v).decr v = counter := by
  funext x
  by_cases h : x = v <;> simp [Counter.incr, Counter.decr, h]

theorem incr_decr_comm (counter : Counter T) (v w : T) (h : w ≠ v) :
    (counter.incr v).decr w = (counter.decr w).incr v := by
  have hvw : ¬ v = w := fun e => h e.symm
  funext x
  by_cases h1 : x = v
  · subst h1
    simp [Counter.incr, Counter.decr, hvw]
  · by_cases h2 : x = w
    · subst h2
      simp [Counter.incr, Counter.decr, h]
    · simp [Counter.incr, Counter.decr, h1, h2]

/-! ## `DiffCount` -/

theorem DiffCount.loop_result (a : List T) (counter : Counter T) (result : List T) :
    DiffCount.loop a counter result = result ++ DiffCount.loop a counter [] := by
  induction a generalizing counter result with
  | nil => simp [DiffCount.loop]
  | cons v rest ih =>
    unfold DiffCount.loop
    split
    · exact ih _ _
    · rw [ih counter (result ++ [v]), ih counter ([] ++ [v])]
      simp

theorem DiffCount.loop_zero (a : List T) :
    DiffCount.loop a (fun _ => 0) [] = a := by
  induction a with
  | nil => rfl
  | cons v rest ih =>
    unfold DiffCount.loop
    simp only [gt_iff_lt, lt_self_iff_false, if_false]
    rw [DiffCount.loop_result, ih]
    rfl

theorem DiffCount.loop_incr (a : List T) (counter : Counter T) (v : T)
    (hv : 0 ≤ counter v) :
    DiffCount.loop a (counter.incr v) [] = DiffCount.loop (a.erase v) counter [] := by
  induction a generalizing counter with
  | nil => rfl
  | cons w rest ih =>
    by_cases hw : w = v
    · subst hw
      have hpos : (counter.incr w) w > 0 := by
        simp [Counter.incr]
        omega
      rw [List.erase_cons_head]
      conv_lhs => unfold DiffCount.loop
      rw [if_pos hpos, incr_decr]
    · have hwv : ¬ (w == v) = true := by simpa using hw
      have hcw : (counter.incr v) w = counter w := by simp [Counter.incr, hw]
      rw [List.erase_cons_tail hwv]
      conv_lhs => unfold DiffCount.loop
      conv_rhs => unfold DiffCount.loop
      rw [hcw]
      by_cases hpos : counter w > 0
      · rw [if_pos hpos, if_pos hpos, incr_decr_comm counter v w hw]
        apply ih
        have hvw : ¬ v = w := fun e => hw e.symm
        simpa [Counter.decr, hvw] using hv
      · rw [if_neg hpos, if_neg hpos, DiffCount.loop_result, ih counter hv,
          DiffCount.loop_result (rest.erase v) counter ([] ++ [w])]

theorem DiffCount_eq_cancelEarliest (a b : List T) :
    DiffCount a b = cancelEarliest a b := by
  induction b generalizing a with
  | nil => simp [DiffCount, cancelEarliest, countAll, DiffCount.loop_zero]
  | cons v rest ih =>
    have h0 : 0 ≤ countAll rest v := by
      rw [countAll_apply]
      exact Int.natCast_nonneg _
    have h1 : DiffCount a (v :: rest) = DiffCount (a.erase v) rest := by
      unfold DiffCount
      rw [countAll_cons, DiffCount.loop_incr a (countAll rest) v h0]
    rw [h1, ih]
    simp [cancelEarliest]

theorem cancelEarliest_count (a b : List T) (x : T) :
    (cancelEarliest a b).count x = a.count x - b.count x := by
  induction b generalizing a with
  | nil => simp [cancelEarliest]
  | cons v rest ih =>
    have h : cancelEarliest a (v :: rest) = cancelEarliest (a.erase v) rest := by
      simp [cancelEarliest]
    rw [h, ih, List.count_erase, List.count_cons]
    by_cases hvx : v = x
    · simp [hvx]
      omega
    · simp [hvx]

theorem cancelEarliest_sublist (a b : List T) : (cancelEarliest a b).Sublist a := by
  induction b generalizing a with
  | nil => simp [cancelEarliest]
  | cons v rest ih =>
    have h : cancelEarliest a (v :: rest) = cancelEarliest (a.erase v) rest := by
      simp [cancelEarliest]
    rw [h]
    exact (ih (a.erase v)).trans (List.erase_sublist v a)

/-- C18. For all lists `a`, `b` and every value `x`, the number of `x` in
`DiffCount a b` is `max 0 (count x a - count x b)`; `DiffCount a b` is a
sublist of `a` (the elements kept are in their order in `a`); and it is `a`
with, for each element of `b` in turn, the earliest equal element still there
cancelled. -/
theorem DiffCount_count (a b : List T) (x : T) :
    (((DiffCount a b).count x : Nat) : Int) =
        max 0 ((a.count x : Int) - (b.count x : Int)) ∧
      (DiffCount a b).Sublist a ∧
      DiffCount a b = cancelEarliest a b := by
  refine ⟨?_, ?_, DiffCount_eq_cancelEarliest a b⟩
  · rw [DiffCount_eq_cancelEarliest, cancelEarliest_count]
    omega
  · rw [DiffCount_eq_cancelEarliest]
    exact cancelEarliest_sublist a b

/-! ## `IsSubsetCount` -/

theorem IsSubsetCount.loop_iff (a : List T) (counter : Counter T)
    (h0 : ∀ y, 0 ≤ counter y) :
    IsSubsetCount.loop a counter = true ↔ ∀ x, (a.count x : Int) ≤ counter x := by
  induction a generalizing counter with
  | nil => simpa [IsSubsetCount.loop] using h0
  | cons v rest ih =>
    unfold IsSubsetCount.loop
    by_cases hv : counter v ≤ 0
    · rw [if_pos hv]
      constructor
      · intro h
        cases h
      · intro h
        have h1 := h v
        rw [List.count_cons_self] at h1
        push_cast at h1
        omega
    · rw [if_neg hv]
      have h0d : ∀ y, 0 ≤ (counter.decr v) y := by
        intro y
        by_cases hy : y = v
        · subst hy
          simp [Counter.decr]
          omega
        · simpa [Counter.decr, hy] using h0 y
      rw [ih (counter.decr v) h0d]
      constructor
      · intro h x
        have h1 := h x
        rw [List.count_cons]
        by_cases hx : x = v
        · subst hx
          simp [Counter.decr] at h1
          simp
          omega
        · have hx2 : ¬ v = x := fun e => hx e.symm
          simpa [Counter.decr, hx, hx2] using h1
      · intro h x
        have h1 := h x
        rw [List.count_cons] at h1
        by_cases hx : x = v
        · subst hx
          simp at h1
          simp [Counter.decr]
          omega
        · have hx2 : ¬ v = x := fun e => hx e.symm
          simpa [Counter.decr, hx, hx2] using h1

/-- C19. For all lists `a` and `b`, `IsSubsetCount a b` is true exactly when
every value occurs in `a` at most as many times as in `b`. -/
theorem IsSubsetCount_iff (a b : List T) :
    IsSubsetCount a b = true ↔ ∀ x, a.count x ≤ b.count x := by
  unfold IsSubsetCount
  by_cases hlen : a.length > b.length
  · rw [if_pos hlen]
    constructor
    · intro h
      cases h
    · intro h
      have hsub : a.Subperm b := List.subperm_ext_iff.mpr (fun x _ => h x)
      have := hsub.length_le
      omega
  · rw [if_neg hlen, IsSubsetCount.loop_iff a (countAll b)
      (fun y => by rw [countAll_apply]; exact Int.natCast_nonneg _)]
    constructor
    · intro h x
      have h1 := h x
      rw [countAll_apply] at h1
      exact_mod_cast h1
    · intro h x
      rw [countAll_apply]
      exact_mod_cast h x

/-! ## `SymmetricDiffCount` -/

/-- C20. For all lists `a`, `b` and every value `x`, the number of `x` in
`SymmetricDiffCount a b` is the absolute difference of the numbers of `x` in
`a` and in `b`. -/
theorem SymmetricDiffCount_count (a b : List T) (x : T) :
    (((SymmetricDiffCount a b).count x : Nat) : Int) =
      |(a.count x : Int) - (b.count x : Int)| := by
  unfold SymmetricDiffCount
  rw [List.count_append, DiffCount_eq_cancelEarliest, DiffCount_eq_cancelEarliest,
    cancelEarliest_count, cancelEarliest_count]
  rcases le_total (a.count x) (b.count x) with h | h
  · rw [abs_of_nonpos (by omega)]
    omega
  · rw [abs_of_nonneg (by omega)]
    omega

/-! ## `DiffLogical` -/

theorem foldl_add (b : List T) (m : GoSet T) (x : T) :
    (b.foldl GoSet.add m) x = (m x || decide (x ∈ b)) := by
  induction b generalizing m with
  | nil => simp
  | cons v rest ih =>
    rw [List.foldl_cons, ih]
    by_cases h : x = v
    · subst h
      simp [GoSet.add]
    · simp [GoSet.add, h]

theorem setOf_apply (b : List T) (x : T) : setOf b x = decide (x ∈ b) := by
  simp [setOf, foldl_add]

theorem DiffLogical.loop_append (a : List T) (inB seen : GoSet T) (result : List T) :
    DiffLogical.loop a inB seen result = result ++ DiffLogical.loop a inB seen [] := by
  induction a generalizing seen result with
  | nil => simp [DiffLogical.loop]
  | cons v rest ih =>
    unfold DiffLogical.loop
    split
    · exact ih _ _
    · split
      · exact ih _ _
      · rw [ih (seen.add v) (result ++ [v]), ih (seen.add v) ([] ++ [v])]
        simp

theorem firstOccurrences_filter (l : List T) (p : T → Bool) :
    firstOccurrences (l.filter p) = (firstOccurrences l).filter p := by
  induction l with
  | nil => rfl
  | cons x xs ih =>
    by_cases hp : p x = true
    · rw [List.filter_cons_of_pos hp]
      simp only [firstOccurrences]
      rw [List.filter_cons_of_pos hp, ih, List.filter_filter, List.filter_filter]
      congr 1
      apply List.filter_congr
      intro y _
      exact Bool.and_comm _ _
    · rw [List.filter_cons_of_neg hp]
      simp only [firstOccurrences]
      rw [List.filter_cons_of_neg hp, ih, List.filter_filter]
      apply List.filter_congr
      intro y _
      by_cases hy : y = x
      · subst hy
        simp [hp]
      · simp [hy]

theorem mem_firstOccurrences (l : List T) (x : T) : x ∈ firstOccurrences l ↔ x ∈ l := by
  induction l with
  | nil => simp [firstOccurrences]
  | cons y ys ih =>
    simp only [firstOccurrences, List.mem_cons, List.mem_filter, ih]
    by_cases h : x = y
    · simp [h]
    · simp [h]

theorem nodup_firstOccurrences (l : List T) : (firstOccurrences l).Nodup := by
  induction l with
  | nil => simp [firstOccurrences]
  | cons y ys ih =>
    simp only [firstOccurrences]
    rw [List.nodup_cons]
    refine ⟨?_, ih.filter _⟩
    simp [List.mem_filter]

theorem firstOccurrences_sublist (l : List T) : (firstOccurrences l).Sublist l := by
  induction l with
  | nil => simp [firstOccurrences]
  | cons y ys ih =>
    simp only [firstOccurrences]
    exact List.Sublist.cons₂ y ((List.filter_sublist _).trans ih)

theorem DiffLogical.loop_eq (a : List T) (inB seen : GoSet T) :
    DiffLogical.loop a inB seen [] =
      firstOccurrences (a.filter (fun x => !inB x && !seen x)) := by
  induction a generalizing seen with
  | nil => rfl
  | cons v rest ih =>
    unfold DiffLogical.loop
    by_cases h1 : inB v = true
    · rw [if_pos h1, List.filter_cons_of_neg (by simp [h1])]
      exact ih seen
    · rw [if_neg h1]
      by_cases h2 : seen v = true
      · rw [if_pos h2, List.filter_cons_of_neg (by simp [h2])]
        exact ih seen
      · rw [if_neg h2, List.filter_cons_of_pos (by simp [h1, h2]),
          DiffLogical.loop_append, ih (seen.add v)]
        simp only [firstOccurrences, List.nil_append, List.singleton_append]
        rw [← firstOccurrences_filter, List.filter_filter]
        congr 2
        apply List.filter_congr
        intro y _
        by_cases hy : y = v
        · subst hy
          simp [GoSet.add]
        · simp [GoSet.add, hy]

theorem DiffLogical_eq (a b : List T) :
    DiffLogical a b = firstOccurrences (a.filter (fun x => decide (x ∉ b))) := by
  unfold DiffLogical
  rw [DiffLogical.loop_eq]
  congr 1
  apply List.filter_congr
  intro x _
  simp [setOf_apply]

theorem mem_DiffLogical (a b : List T) (x : T) :
    x ∈ DiffLogical a b ↔ x ∈ a ∧ x ∉ b := by
  rw [DiffLogical_eq, mem_firstOccurrences, List.mem_filter]
  simp

theorem nodup_DiffLogical (a b : List T) : (DiffLogical a b).Nodup := by
  rw [DiffLogical_eq]
  exact nodup_firstOccurrences _

/-- C21. For all lists `a` and `b`, `DiffLogical a b`, and `Diff a b` with it,
is the list of the distinct values of `a` that do not occur in `b`, each once,
in the order of their first occurrence in `a`: it has no value twice, holds
exactly the values of `a` that are not in `b`, and is a sublist of `a`. -/
theorem DiffLogical_distinct (a b : List T) :
    DiffLogical a b = firstOccurrences (a.filter (fun x => decide (x ∉ b))) ∧
      Diff a b = DiffLogical a b ∧
      (DiffLogical a b).Nodup ∧
      (∀ x, x ∈ DiffLogical a b ↔ x ∈ a ∧ x ∉ b) ∧
      (DiffLogical a b).Sublist a := by
  refine ⟨DiffLogical_eq a b, rfl, nodup_DiffLogical a b, mem_DiffLogical a b, ?_⟩
  rw [DiffLogical_eq]
  exact (firstOccurrences_sublist _).trans (List.filter_sublist _)

/-! ## `SymmetricDiffLogical` -/

/-- C22. For all lists `a` and `b`, a value occurs in
`SymmetricDiffLogical a b` (and in `SymmetricDiff a b`, which is the same)
exactly when it occurs in one of `a` and `b` and not in the other; the result
has no value twice; and it lists the values found only in `a`, in the order of
their first occurrence in `a`, before the values found only in `b`, in the
order of their first occurrence in `b`. -/
theorem SymmetricDiffLogical_exactly_one (a b : List T) :
    (∀ x, x ∈ SymmetricDiffLogical a b ↔ (x ∈ a ∧ x ∉ b) ∨ (x ∈ b ∧ x ∉ a)) ∧
      SymmetricDiff a b = SymmetricDiffLogical a b ∧
      (SymmetricDiffLogical a b).Nodup ∧
      SymmetricDiffLogical a b =
        firstOccurrences (a.filter (fun x => decide (x ∉ b))) ++
          firstOccurrences (b.filter (fun x => decide (x ∉ a))) := by
  refine ⟨?_, rfl, ?_, ?_⟩
  · intro x
    simp [SymmetricDiffLogical, mem_DiffLogical]
  · unfold SymmetricDiffLogical
    rw [List.nodup_append]
    refine ⟨nodup_DiffLogical a b, nodup_DiffLogical b a, ?_⟩
    intro x hx hy
    rw [mem_DiffLogical] at hx hy
    exact hx.2 hy.1
  · simp [SymmetricDiffLogical, DiffLogical_eq]

/-! ## `IsSubsetLogical` -/

theorem IsSubsetLogical.loop_all (a : List T) (m : GoSet T) :
    IsSubsetLogical.loop a m = true ↔ ∀ x ∈ a, m x = true := by
  induction a with
  | nil => simp [IsSubsetLogical.loop]
  | cons v rest ih =>
    unfold IsSubsetLogical.loop
    by_cases hv : m v = true
    · simp [hv, ih]
    · simp [hv]

/-- C23. For all lists `a` and `b`, `IsSubsetLogical a b` is true exactly when
every element of `a` occurs in `b`, however often; the empty list is a subset
of every list; and `IsSubset a b` has the value of `IsSubsetLogical a b`. -/
theorem IsSubsetLogical_iff (a b : List T) :
    (IsSubsetLogical a b = true ↔ ∀ x ∈ a, x ∈ b) ∧
      IsSubsetLogical [] b = true ∧
      IsSubset a b = IsSubsetLogical a b := by
  refine ⟨?_, rfl, rfl⟩
  unfold IsSubsetLogical
  rw [IsSubsetLogical.loop_all]
  simp [setOf_apply]

/-! ## `Chunk` -/

theorem Chunk.loop_fuel (arr : List T) (size chunks length : Nat) (hsize : 1 ≤ size)
    (fuel1 fuel2 i : Nat) (result : List (List T))
    (h1 : chunks ≤ i + fuel1) (h2 : chunks ≤ i + fuel2) :
    Chunk.loop arr size chunks length fuel1 i result =
      Chunk.loop arr size chunks length fuel2 i result := by
  induction fuel1 generalizing fuel2 i result with
  | zero =>
    cases fuel2 with
    | zero => rfl
    | succ f2 =>
      have hi : ¬ i < chunks := by omega
      simp [Chunk.loop, hi]
  | succ f1 ih =>
    cases fuel2 with
    | zero =>
      have hi : ¬ i < chunks := by omega
      simp [Chunk.loop, hi]
    | succ f2 =>
      unfold Chunk.loop
      by_cases hi : i < chunks
      · rw [if_pos hi, if_pos hi]
        exact ih f2 (i + size) _ (by omega) (by omega)
      · rw [if_neg hi, if_neg hi]

/-- C24 (the code at failing inputs). `Chunk` of a list of four elements with
size 2 is the one chunk `[1, 2]`: the loop counts `i` up by `size` but stops
when `i` reaches the number of chunks, so the elements from index 2 on are
lost and the chunks do not give back the list. With five elements and size 2
the last element is lost, with nine elements and size 3 all but the first
chunk. -/
theorem Chunk_loses_elements :
    Chunk [1, 2, 3, 4] 2 = [[1, 2]] ∧
      (Chunk [1, 2, 3, 4] 2).flatten ≠ [1, 2, 3, 4] ∧
      (Chunk [1, 2, 3, 4] 2).length ≠ ceilDiv 4 2 ∧
      Chunk [1, 2, 3, 4, 5] 2 = [[1, 2], [3, 4]] ∧
      Chunk [1, 2, 3, 4, 5, 6, 7, 8, 9] 3 = [[1, 2, 3]] := by
  decide

end Gobase.Arrayutil

namespace Gobase.Stringutil

/-! ## ASCII characters -/

theorem ascii_cases (P : Char → Prop) (h : ∀ n, n < 128 → P (Char.ofNat n))
    (c : Char) (hc : c.toNat < 128) : P c := by
  have := h c.toNat hc
  rwa [Char.ofNat_toNat] at this

theorem ascii_utf8Size (c : Char) (hc : c.toNat < 128) : c.utf8Size = 1 :=
  ascii_cases (fun c => c.utf8Size = 1) (by decide) c hc

theorem ascii_toLower_not_upper (c : Char) (hc : c.toNat < 128) :
    c.toLower.isUpper = false :=
  ascii_cases (fun c => c.toLower.isUpper = false) (by decide) c hc

theorem ascii_utf8Len (l : List Char) (h : ∀ c ∈ l, c.toNat < 128) :
    String.utf8Len l = l.length := by
  induction l with
  | nil => rfl
  | cons c cs ih =>
    rw [String.utf8Len_cons, ih (fun x hx => h x (List.mem_cons_of_mem _ hx)),
      ascii_utf8Size c (h c (List.mem_cons_self _ _)), List.length_cons]

/-! ## `SnakeCase` -/

theorem SnakeCase.loop_later (l : List Char) (i : Nat) (acc : List Char) (hi : 0 < i) :
    SnakeCase.loop l i acc =
      acc ++ l.flatMap (fun r => if r.isUpper then ['_', r.toLower] else [r.toLower]) := by
  induction l generalizing i acc with
  | nil => simp [SnakeCase.loop]
  | cons r rest ih =>
    unfold SnakeCase.loop
    simp only []
    rw [ih (i + r.utf8Size) _ (by omega)]
    by_cases hr : r.isUpper = true
    · simp [unicode_IsUpper, unicode_ToLower, hr, hi]
    · simp [unicode_IsUpper, unicode_ToLower, hr]

theorem SnakeCase_data (s : String) : (SnakeCase s).data = snakeOf s.data := by
  unfold SnakeCase
  cases hs : s.data with
  | nil => rfl
  | cons c cs =>
    simp only [SnakeCase.loop, snakeOf]
    rw [SnakeCase.loop_later cs _ _ (by have := Char.utf8Size_pos c; omega)]
    simp [unicode_ToLower]

theorem ascii_toLower_ascii (c : Char) (hc : c.toNat < 128) : c.toLower.toNat < 128 :=
  ascii_cases (fun c => c.toLower.toNat < 128) (by decide) c hc

theorem snakeOf_length (l : List Char) :
    (snakeOf l).length = l.length + ((l.drop 1).filter Char.isUpper).length := by
  cases l with
  | nil => rfl
  | cons c cs =>
    simp only [snakeOf, List.length_cons, List.drop_succ_cons, List.drop_zero]
    have h : (cs.flatMap
        (fun r => if r.isUpper then ['_', r.toLower] else [r.toLower])).length =
        cs.length + (cs.filter Char.isUpper).length := by
      induction cs with
      | nil => rfl
      | cons r rs ih =>
        rw [List.flatMap_cons, List.length_append, ih]
        by_cases hr : r.isUpper = true
        · simp [hr]
          omega
        · simp [hr]
          omega
    omega

theorem snakeOf_mem (l : List Char) (x : Char) (hx : x ∈ snakeOf l) :
    x = '_' ∨ ∃ r ∈ l, x = r.toLower := by
  cases l with
  | nil => simp [snakeOf] at hx
  | cons c cs =>
    simp only [snakeOf, List.mem_cons, List.mem_flatMap] at hx
    rcases hx with h | ⟨r, hr, h⟩
    · exact Or.inr ⟨c, List.mem_cons_self _ _, h⟩
    · by_cases hu : r.isUpper = true
      · simp [hu] at h
        rcases h with h | h
        · exact Or.inl h
        · exact Or.inr ⟨r, List.mem_cons_of_mem _ hr, h⟩
      · simp [hu] at h
        exact Or.inr ⟨r, List.mem_cons_of_mem _ hr, h⟩

/-- C27. For every ASCII string `s`, `SnakeCase s` is `s` in lower case with
an underscore put before each character that was in upper case, the first
character apart; it holds no upper-case letter, and its length is the length
of `s` plus the number of upper-case characters after the first. -/
theorem SnakeCase_snake (s : String) (hascii : ∀ c ∈ s.data, c.toNat < 128) :
    (SnakeCase s).data = snakeOf s.data ∧
      (∀ c ∈ (SnakeCase s).data, unicode_IsUpper c = false) ∧
      len (SnakeCase s) = len s + ((s.data.drop 1).filter unicode_IsUpper).length := by
  have hd := SnakeCase_data s
  have hmem : ∀ c ∈ (SnakeCase s).data, c.toNat < 128 ∧ c.isUpper = false := by
    intro c hc
    rw [hd] at hc
    rcases snakeOf_mem s.data c hc with h | ⟨r, hr, h⟩
    · subst h
      exact ⟨by decide, by decide⟩
    · subst h
      exact ⟨ascii_toLower_ascii r (hascii r hr), ascii_toLower_not_upper r (hascii r hr)⟩
  refine ⟨hd, fun c hc => (hmem c hc).2, ?_⟩
  have h1 : (SnakeCase s).utf8ByteSize = (SnakeCase s).data.length :=
    ascii_utf8Len (SnakeCase s).data (fun c hc => (hmem c hc).1)
  have h2 : s.utf8ByteSize = s.data.length := ascii_utf8Len s.data hascii
  have h3 : (s.data.drop 1).filter unicode_IsUpper = (s.data.drop 1).filter Char.isUpper :=
    rfl
  simp only [len]
  rw [h1, h2, hd, snakeOf_length, h3]
  push_cast
  rfl

/-- C27 at `HelloWorld`, as in `TestSnakeCase`. -/
theorem SnakeCase_snake_witness :
    SnakeCase "HelloWorld" = "hello_world" ∧
      len (SnakeCase "HelloWorld") = len "HelloWorld" + 1 :=
  have h := SnakeCase_snake "HelloWorld" (by decide)
  ⟨by decide, h.2.2⟩

/-! ## `CamelCase` -/

theorem strings_Split_mem (sep : Char) (l : List Char) :
    ∀ w ∈ strings_Split sep l, ∀ c ∈ w, c ∈ l ∧ c ≠ sep := by
  induction l with
  | nil =>
    intro w hw c hc
    simp [strings_Split] at hw
    subst hw
    cases hc
  | cons x xs ih =>
    intro w hw c hc
    unfold strings_Split at hw
    by_cases hx : x = sep
    · rw [if_pos hx] at hw
      rcases List.mem_cons.mp hw with h | h
      · subst h
        cases hc
      · exact ⟨List.mem_cons_of_mem _ (ih w h c hc).1, (ih w h c hc).2⟩
    · rw [if_neg hx] at hw
      cases hsp : strings_Split sep xs with
      | nil =>
        rw [hsp] at hw
        simp at hw
        subst hw
        simp at hc
        subst hc
        exact ⟨List.mem_cons_self _ _, hx⟩
      | cons w0 ws =>
        rw [hsp] at hw
        rcases List.mem_cons.mp hw with h | h
        · subst h
          rcases List.mem_cons.mp hc with h2 | h2
          · subst h2
            exact ⟨List.mem_cons_self _ _, hx⟩
          · have := ih w0 (by rw [hsp]; exact List.mem_cons_self _ _) c h2
            exact ⟨List.mem_cons_of_mem _ this.1, this.2⟩
        · have := ih w (by rw [hsp]; exact List.mem_cons_of_mem _ h) c hc
          exact ⟨List.mem_cons_of_mem _ this.1, this.2⟩

theorem strings_Split_of_not_mem (sep : Char) (l : List Char) (h : sep ∉ l) :
    strings_Split sep l = [l] := by
  induction l with
  | nil => rfl
  | cons x xs ih =>
    have hx : ¬ x = sep := fun e => h (e ▸ List.mem_cons_self _ _)
    have hxs : sep ∉ xs := fun e => h (List.mem_cons_of_mem _ e)
    unfold strings_Split
    rw [if_neg hx, ih hxs]

theorem CamelCase.loop_rest (ws : List (List Char)) (b : List Char) :
    CamelCase.loop ws true b =
      b ++ ((ws.filter (fun w => w ≠ [])).map capitalized).flatten := by
  induction ws generalizing b with
  | nil => simp [CamelCase.loop]
  | cons w rest ih =>
    unfold CamelCase.loop
    by_cases hw : w = []
    · rw [if_pos hw, ih]
      simp [hw]
    · rw [if_neg hw]
      simp only [Bool.not_true, Bool.false_eq_true, if_false]
      have hf : (w :: rest).filter (fun w => w ≠ []) =
          w :: rest.filter (fun w => w ≠ []) := by
        simp [hw]
      rw [hf, List.map_cons, List.flatten_cons]
      cases hl : strings_ToLower w with
      | nil =>
        have hc : capitalized w = [] := by
          simp only [capitalized]
          have : w.map Char.toLower = [] := hl
          rw [this]
        simp only []
        rw [ih, hc]
        simp
      | cons r0 runes =>
        have hc : capitalized w = unicode_ToUpper r0 :: runes := by
          simp only [capitalized]
          have : w.map Char.toLower = r0 :: runes := hl
          rw [this]
          rfl
        simp only []
        rw [ih, hc]
        simp

theorem CamelCase.loop_first (ws : List (List Char)) :
    CamelCase.loop ws false [] =
      match ws.filter (fun w => w ≠ []) with
      | [] => []
      | w :: rest => w.map Char.toLower ++ (rest.map capitalized).flatten := by
  induction ws with
  | nil => simp [CamelCase.loop]
  | cons w rest ih =>
    unfold CamelCase.loop
    by_cases hw : w = []
    · rw [if_pos hw, ih]
      simp [hw]
    · rw [if_neg hw]
      simp only [Bool.not_false, if_true]
      have hf : (w :: rest).filter (fun w => w ≠ []) =
          w :: rest.filter (fun w => w ≠ []) := by
        simp [hw]
      rw [hf, CamelCase.loop_rest]
      simp [strings_ToLower, unicode_ToLower]

theorem CamelCase_data (s : String) : (CamelCase s).data = camelOf s.data := by
  unfold CamelCase camelOf segments
  rw [CamelCase.loop_first]

theorem ascii_case_not_underscore (c : Char) (hc : c.toNat < 128) (hne : c ≠ '_') :
    c.toLower ≠ '_' ∧ c.toLower.toUpper ≠ '_' :=
  ascii_cases (fun c => c ≠ '_' → c.toLower ≠ '_' ∧ c.toLower.toUpper ≠ '_')
    (by decide) c hc hne

theorem capitalized_mem (w : List Char) (x : Char) (hx : x ∈ capitalized w) :
    ∃ c ∈ w, x = c.toLower ∨ x = c.toLower.toUpper := by
  unfold capitalized at hx
  cases w with
  | nil => simp at hx
  | cons c cs =>
    simp only [List.map_cons, List.mem_cons, List.mem_map] at hx
    rcases hx with h | ⟨r, hr, h⟩
    · exact ⟨c, List.mem_cons_self _ _, Or.inr h⟩
    · exact ⟨r, List.mem_cons_of_mem _ hr, Or.inl h.symm⟩

theorem camelOf_mem (l : List Char) (x : Char) (hx : x ∈ camelOf l) :
    ∃ c ∈ l, c ≠ '_' ∧ (x = c.toLower ∨ x = c.toLower.toUpper) := by
  unfold camelOf at hx
  have hseg : ∀ w ∈ segments l, ∀ c ∈ w, c ∈ l ∧ c ≠ '_' := by
    intro w hw c hc
    exact strings_Split_mem '_' l w (List.mem_filter.mp hw).1 c hc
  cases hs : segments l with
  | nil =>
    rw [hs] at hx
    cases hx
  | cons w ws =>
    rw [hs] at hx hseg
    simp only [List.mem_append, List.mem_map, List.mem_flatten] at hx
    rcases hx with ⟨c, hc, h⟩ | ⟨v, ⟨w2, hw2, hv⟩, hxv⟩
    · have := hseg w (List.mem_cons_self _ _) c hc
      exact ⟨c, this.1, this.2, Or.inl h.symm⟩
    · subst hv
      obtain ⟨c, hc, h⟩ := capitalized_mem w2 x hxv
      have := hseg w2 (List.mem_cons_of_mem _ hw2) c hc
      exact ⟨c, this.1, this.2, h⟩

/-- C26. For every ASCII string `s` (a string of ASCII letters, digits and
underscores in particular), `CamelCase s` is made of the pieces of `s` between
underscores that are not empty: the first in lower case, every later one in
lower case with its first character in upper case. The result holds no
underscore, and a string without underscore comes back in lower case. -/
theorem CamelCase_camel (s : String) (hascii : ∀ c ∈ s.data, c.toNat < 128) :
    (CamelCase s).data = camelOf s.data ∧
      '_' ∉ (CamelCase s).data ∧
      ('_' ∉ s.data → (CamelCase s).data = s.data.map unicode_ToLower) := by
  refine ⟨CamelCase_data s, ?_, ?_⟩
  · intro h
    rw [CamelCase_data] at h
    obtain ⟨c, hc, hne, hx⟩ := camelOf_mem s.data '_' h
    have := ascii_case_not_underscore c (hascii c hc) hne
    rcases hx with hx | hx
    · exact this.1 hx.symm
    · exact this.2 hx.symm
  · intro h
    rw [CamelCase_data]
    unfold camelOf segments
    rw [strings_Split_of_not_mem '_' s.data h]
    cases hd : s.data with
    | nil => rfl
    | cons c cs =>
      simp [unicode_ToLower]

/-- C26 at the strings of `TestCamelCase`. -/
theorem CamelCase_camel_witness :
    CamelCase "_hello__world_again_" = "helloWorldAgain" ∧
      '_' ∉ (CamelCase "_hello__world_again_").data ∧
      CamelCase "helloWorld" = "helloworld" :=
  ⟨by decide,
    (CamelCase_camel "_hello__world_again_" (by decide)).2.1,
    by decide⟩

/-! ## `RandomStringWithCharset` -/

theorem bytes_pos (charset : String) (h : charset ≠ "") : 0 < (bytes charset).length := by
  unfold bytes
  cases hd : charset.data with
  | nil =>
    exfalso
    apply h
    exact String.ext hd
  | cons c cs =>
    rw [List.flatMap_cons, List.length_append, String.length_utf8EncodeChar]
    have := Char.utf8Size_pos c
    omega

theorem RandomStringWithCharset.fill_ok (charset : List UInt8) (draws : Nat → Nat)
    (hpos : 0 < charset.length) (n i : Nat) :
    ∃ b, RandomStringWithCharset.fill charset draws n i = some b ∧ b.length = n ∧
      ∀ x ∈ b, x ∈ charset := by
  induction n generalizing i with
  | zero => exact ⟨[], rfl, rfl, fun x hx => by cases hx⟩
  | succ n ih =>
    obtain ⟨b, hb, hlen, hmem⟩ := ih (i + 1)
    have hlt : rand_Intn (draws i) charset.length < charset.length :=
      Nat.mod_lt _ hpos
    refine ⟨charset[rand_Intn (draws i) charset.length] :: b, ?_, ?_, ?_⟩
    · unfold RandomStringWithCharset.fill
      rw [List.getElem?_eq_getElem hlt, hb]
      rfl
    · rw [List.length_cons, hlen]
    · intro x hx
      rcases List.mem_cons.mp hx with h | h
      · rw [h]
        exact List.getElem_mem _
      · exact hmem x h

/-- C28. For every length, every charset and every sequence of draws of the
random source: `RandomStringWithCharset` returns the empty string when the
length is not positive or the charset is empty; otherwise it returns (the
index into the charset is always in range, so there is no panic) a string of
exactly `length` bytes, each of them a byte of the charset. `RandomString` is
the same with `DefaultCharset`. -/
theorem RandomStringWithCharset_bytes (length : Int) (charset : String)
    (draws : Nat → Nat) :
    ((length ≤ 0 ∨ charset = "") →
        RandomStringWithCharset length charset draws = some []) ∧
      ((0 < length ∧ charset ≠ "") →
        ∃ b, RandomStringWithCharset length charset draws = some b ∧
          (b.length : Int) = length ∧ ∀ x ∈ b, x ∈ bytes charset) ∧
      RandomString length draws = RandomStringWithCharset length DefaultCharset draws := by
  refine ⟨?_, ?_, rfl⟩
  · intro h
    unfold RandomStringWithCharset
    by_cases hl : length ≤ 0
    · rw [if_pos hl]
    · rw [if_neg hl]
      rcases h with h | h
      · exact absurd h hl
      · rw [if_pos h]
  · intro h
    obtain ⟨hl, hc⟩ := h
    unfold RandomStringWithCharset
    rw [if_neg (by omega), if_neg hc]
    obtain ⟨b, hb, hlen, hmem⟩ :=
      RandomStringWithCharset.fill_ok (bytes charset) draws (bytes_pos charset hc)
        length.toNat 0
    refine ⟨b, hb, ?_, hmem⟩
    rw [hlen]
    omega

/-! ## `FormatString` -/

/-- C25 (the code at a failing input). `FormatString` of the five bytes
`hello` with length 3 returns `hello` as it is, five bytes and not three: the
test `len(text) >= length` returns the text, and the branch that would cut it,
under the same test, is never reached. -/
theorem FormatString_keeps_longer_text :
    FormatString "hello" 3 "left" = "hello" ∧
      len (FormatString "hello" 3 "left") = 5 ∧
      len (FormatString "hello" 3 "left") ≠ 3 ∧
      FormatString "hello" 3 "right" = "hello" := by
  decide

theorem len_append (a b : String) : len (a ++ b) = len a + len b := by
  obtain ⟨a⟩ := a
  obtain ⟨b⟩ := b
  have h : (String.mk a ++ String.mk b) = String.mk (a ++ b) := rfl
  simp only [len, h, String.utf8ByteSize_mk, String.utf8Len_append]
  push_cast
  rfl

theorem len_strings_Repeat (n : Int) (hn : 0 ≤ n) : len (strings_Repeat ' ' n) = n := by
  have h : ∀ k : Nat, String.utf8Len (List.replicate k ' ') = k := by
    intro k
    induction k with
    | zero => rfl
    | succ k ih =>
      rw [List.replicate_succ, String.utf8Len_cons, ih]
      rfl
  simp only [len, strings_Repeat, String.utf8ByteSize_mk, h]
  omega

/-- The part of the claim on `FormatString` that holds: a text shorter than
`length` is padded with spaces to exactly `length` bytes, on the right when
`align` is `left` and on the left otherwise. -/
theorem FormatString_pads (text : String) (length : Int) (align : String)
    (h : len text < length) :
    len (FormatString text length align) = length ∧
      (align = "left" →
        FormatString text length align = text ++ strings_Repeat ' ' (length - len text)) ∧
      (align ≠ "left" →
        FormatString text length align = strings_Repeat ' ' (length - len text) ++ text) := by
  have hn : ¬ len text ≥ length := by omega
  have hr := len_strings_Repeat (length - len text) (by omega)
  unfold FormatString
  simp only [hn, if_false]
  refine ⟨?_, ?_, ?_⟩
  · by_cases ha : align = "left"
    · rw [if_pos ha, len_append, hr]
      omega
    · rw [if_neg ha, len_append, hr]
      omega
  · intro ha
    rw [if_pos ha]
  · intro ha
    rw [if_neg ha]

end Gobase.Stringutil

namespace Gobase.Maputil

variable {T A : Type} [DecidableEq T]

/-! ## `MergeMap` -/

theorem maps_Copy_apply (dst src : GoMap T A) (k : T) :
    maps_Copy dst src k = (src k).or (dst k) := by
  unfold maps_Copy
  cases src k <;> rfl

theorem findSome_single (m : GoMap T A) (k : T) :
    List.findSome? (fun m1 : GoMap T A => m1 k) [m] = m k := by
  cases hh : m k <;> simp [List.findSome?, hh]

theorem mergeLoop_frame (d : List (Option Ref)) (h : Heap T A) (data r : Ref)
    (hr : r ≠ data) :
    (d.foldl (fun h1 val => copyInto h1 data val) h) r = h r := by
  induction d generalizing h with
  | nil => rfl
  | cons val rest ih =>
    rw [List.foldl_cons, ih]
    simp [copyInto, hr]

theorem mergeLoop_data (d : List (Option Ref)) (h : Heap T A) (data : Ref) (k : T) :
    (d.foldl (fun h1 val => copyInto h1 data val) h) data k =
      ((((d.filter (fun m => m ≠ some data)).map h.read).reverse.findSome?
        (fun m => m k)).or (h data k)) := by
  induction d generalizing h with
  | nil => simp
  | cons val rest ih =>
    rw [List.foldl_cons, ih]
    have hread : ∀ m ∈ rest.filter (fun m => m ≠ some data),
        (copyInto h data val).read m = h.read m := by
      intro m hm
      have hne : m ≠ some data := by simpa using (List.mem_filter.mp hm).2
      cases m with
      | none => rfl
      | some r =>
        have hr : r ≠ data := fun e => hne (by rw [e])
        simp [Heap.read, copyInto, hr]
    rw [List.map_congr_left hread]
    have hdata : (copyInto h data val) data k = (h.read val k).or (h data k) := by
      simp [copyInto, maps_Copy_apply]
    rw [hdata]
    by_cases hv : val = some data
    · subst hv
      have hf : (some data :: rest).filter (fun m => m ≠ some data) =
          rest.filter (fun m => m ≠ some data) := by
        simp
      rw [hf]
      have hself : h.read (some data) k = h data k := rfl
      rw [hself]
      generalize ((rest.filter (fun m => m ≠ some data)).map h.read).reverse.findSome?
        (fun m => m k) = later
      cases later <;> cases h data k <;> rfl
    · have hf : (val :: rest).filter (fun m => m ≠ some data) =
          val :: rest.filter (fun m => m ≠ some data) := by
        simp [hv]
      rw [hf, List.map_cons, List.reverse_cons, List.findSome?_append, findSome_single]
      generalize ((rest.filter (fun m => m ≠ some data)).map h.read).reverse.findSome?
        (fun m => m k) = later
      cases later <;> cases h.read val k <;> rfl

theorem findSome_isSome (l : List (GoMap T A)) (k : T) :
    (l.findSome? (fun m => m k)).isSome = true ↔ ∃ m ∈ l, (m k).isSome = true := by
  induction l with
  | nil => simp
  | cons m rest ih =>
    rw [List.findSome?_cons]
    cases hm : m k with
    | some v => simp [hm]
    | none => simp [hm, ih]

/-- What `MergeMap` does in general: it returns `data`, leaves every other map
object as it was, and binds each key in the object of `data` to its value in
the last map that holds it among `data` and those of `d1, ..., dn` that are not
the map `data` itself. -/
theorem MergeMap_skips_data (h : Heap T A) (data : Ref) (d : List (Option Ref)) (k : T) :
    (MergeMap h data d).1 = data ∧
      (MergeMap h data d).2 data k =
        (h data :: (d.filter (fun m => m ≠ some data)).map h.read).reverse.findSome?
          (fun m => m k) ∧
      (∀ r, r ≠ data → (MergeMap h data d).2 r = h r) := by
  have hm : MergeMap h data d = (data, d.foldl (fun h1 val => copyInto h1 data val) h) := by
    unfold MergeMap
    cases d with
    | nil => rfl
    | cons m rest => simp
  rw [hm]
  refine ⟨rfl, ?_, ?_⟩
  · show (d.foldl (fun h1 val => copyInto h1 data val) h) data k = _
    rw [mergeLoop_data, List.reverse_cons, List.findSome?_append, findSome_single]
  · intro r hr
    exact mergeLoop_frame d h data r hr

/-- C29 (the claim fails). The map `data` holds `a: 1`, the map `d1` holds
`a: 2`, and `MergeMap(data, d1, data)` is called. The last map of the sequence
`data, d1, data` that holds `a` is `data`, with the value 1 when the call is
made; the map returned binds `a` to 2, since `data` has been updated in place
by the copy of `d1` before it is copied onto itself. -/
theorem MergeMap_aliased_data :
    ((MergeMap
        (fun r : Ref =>
          if r = 0 then (fun k : String => if k = "a" then some (1 : Nat) else none)
          else if r = 1 then (fun k : String => if k = "a" then some 2 else none)
          else fun _ => none)
        0 [some 1, some 0]).2 0) "a" = some 2 ∧
      (((fun r : Ref =>
            if r = 0 then (fun k : String => if k = "a" then some (1 : Nat) else none)
            else if r = 1 then (fun k : String => if k = "a" then some 2 else none)
            else fun _ => none) 0 ::
          [some 1, some 0].map
            (Heap.read
              (fun r : Ref =>
                if r = 0 then (fun k : String => if k = "a" then some (1 : Nat) else none)
                else if r = 1 then (fun k : String => if k = "a" then some 2 else none)
                else fun _ => none))).reverse.findSome?
        (fun m => m "a")) = some 1 := by
  decide

/-- C29 (amended). For a map `data` that is not nil and maps `d1, ..., dn` none
of which is the map `data` itself, `MergeMap` returns `data`, whose object now
binds each key to its value in the last map of the sequence
`data, d1, ..., dn` that holds the key; its keys are the keys of all these
maps together; no other map object changes; and with no further map the call
returns `data` with nothing changed. -/
theorem MergeMap_last_wins (h : Heap T A) (data : Ref) (d : List (Option Ref)) (k : T)
    (hno : ∀ m ∈ d, m ≠ some data) :
    (MergeMap h data d).1 = data ∧
      (MergeMap h data d).2 data k =
        (h data :: d.map h.read).reverse.findSome? (fun m => m k) ∧
      (((MergeMap h data d).2 data k).isSome = true ↔
        ∃ m ∈ h data :: d.map h.read, (m k).isSome = true) ∧
      (∀ r, r ≠ data → (MergeMap h data d).2 r = h r) ∧
      MergeMap h data [] = (data, h) := by
  obtain ⟨h1, h2, h3⟩ := MergeMap_skips_data h data d k
  have hf : d.filter (fun m => m ≠ some data) = d := by
    rw [List.filter_eq_self]
    intro m hm
    simpa using hno m hm
  rw [hf] at h2
  refine ⟨h1, h2, ?_, h3, rfl⟩
  rw [h2, findSome_isSome]
  constructor
  · rintro ⟨m, hm, hk⟩
    exact ⟨m, List.mem_reverse.mp hm, hk⟩
  · rintro ⟨m, hm, hk⟩
    exact ⟨m, List.mem_reverse.mpr hm, hk⟩

/-- C29 (amended) at the maps of `TestMergeMap`: `base` holds `a: 1, b: 2`,
`m1` holds `b: 3` and `m2` holds `c: 4`; the merged map binds `b` to 3. -/
theorem MergeMap_last_wins_witness :
    (MergeMap
        (fun r : Ref =>
          if r = 0 then
            (fun k : String => if k = "a" then some (1 : Nat) else if k = "b" then some 2
              else none)
          else if r = 1 then (fun k : String => if k = "b" then some 3 else none)
          else if r = 2 then (fun k : String => if k = "c" then some 4 else none)
          else fun _ => none)
        0 [some 1, some 2]).1 = 0 ∧
      (((MergeMap
        (fun r : Ref =>
          if r = 0 then
            (fun k : String => if k = "a" then some (1 : Nat) else if k = "b" then some 2
              else none)
          else if r = 1 then (fun k : String => if k = "b" then some 3 else none)
          else if r = 2 then (fun k : String => if k = "c" then some 4 else none)
          else fun _ => none)
        0 [some 1, some 2]).2 0 "b").isSome = true) :=
  have h := MergeMap_last_wins
    (fun r : Ref =>
      if r = 0 then
        (fun k : String => if k = "a" then some (1 : Nat) else if k = "b" then some 2
          else none)
      else if r = 1 then (fun k : String => if k = "b" then some 3 else none)
      else if r = 2 then (fun k : String => if k = "c" then some 4 else none)
      else fun _ => none)
    0 [some 1, some 2] "b" (by decide)
  ⟨h.1, by decide⟩

end Gobase.Maputil

namespace Gobase.Osutil

/-! ## `Call` -/

/-- C30 (the code at the failing input). With the untyped nil as `method`,
`Call` panics, whatever the parameters: `reflect.TypeOf(nil)` is the nil
`Type`, and `t.Kind()` on it dereferences nil. The claim says an error is
returned and nothing panics. -/
theorem Call_nil_method_panics (assignable : GoType → GoType → Bool)
    (params : List (Option Iface)) :
    Call assignable none params = .panicked := by
  rfl

/-- The part of the claim on `Call` that holds, for a `method` that is not nil
and not a function: nil and an error are returned. -/
theorem Call_not_function (assignable : GoType → GoType → Bool) (f : Iface)
    (params : List (Option Iface)) (h : f.type.kind ≠ .Func) :
    Call assignable (some f) params =
      .returned (none, some "the input is not a function") := by
  simp [Call, h]

/-- The part of the claim on `Call` that holds, for a function given another
number of parameters than it takes: nil and an error are returned, whatever
the function would do. -/
theorem Call_count_mismatch (assignable : GoType → GoType → Bool) (f : Iface)
    (params : List (Option Iface)) (h : f.type.kind = .Func)
    (hn : params.length ≠ f.ins.length) :
    Call assignable (some f) params =
      .returned (none, some "the number of input params not match") := by
  simp [Call, h, hn]

theorem Call.convert_invalid (assignable : GoType → GoType → Bool) (ins : List GoType)
    (params : List (Option Iface)) (i : Nat) (mp : List Value)
    (hlen : params.length = ins.length) (hnil : none ∈ params)
    (h : Call.convert assignable ins params i = .ok mp) : Value.invalid ∈ mp := by
  induction params generalizing ins i mp with
  | nil => cases hnil
  | cons v rest ih =>
    cases ins with
    | nil => simp at hlen
    | cons inType ins =>
      have hlen2 : rest.length = ins.length := by simpa using hlen
      unfold Call.convert at h
      cases v with
      | none =>
        simp only [] at h
        split at h
        · cases h
        · cases hc : Call.convert assignable ins rest (i + 1) with
          | error err =>
            rw [hc] at h
            cases h
          | ok tail =>
            rw [hc] at h
            cases h
            exact List.mem_cons_self _ _
      | some x =>
        have hrest : none ∈ rest := by
          rcases List.mem_cons.mp hnil with h1 | h1
          · cases h1
          · exact h1
        simp only [] at h
        split at h
        · cases h
        · cases hc : Call.convert assignable ins rest (i + 1) with
          | error err =>
            rw [hc] at h
            cases h
          | ok tail =>
            rw [hc] at h
            cases h
            exact List.mem_cons_of_mem _ (ih ins (i + 1) tail hlen2 hrest hc)

/-- C32 (what the code does). For a function and a list of parameters of the
matching length with a nil among them, `Call` never returns results of the
function: it returns an error, or, when every parameter passes its test (a nil
for a pointer, interface, slice, map, chan or func type does), it panics. The
value `reflect.Zero(inType)` put into `mp[i]` is overwritten by `mp[i] = val`,
the invalid `Value` of nil, on which `Value.Call` panics. The claim says the
function is called with the zero value and its results are returned. -/
theorem Call_nil_param_panics (assignable : GoType → GoType → Bool) (f : Iface)
    (params : List (Option Iface)) (hk : f.type.kind = .Func)
    (hlen : params.length = f.ins.length) (hnil : none ∈ params) :
    (∀ out, Call assignable (some f) params ≠ .returned (some out, none)) ∧
      (∀ mp, Call.convert assignable f.ins params 0 = .ok mp →
        Call assignable (some f) params = .panicked) := by
  have hpanic : ∀ mp, Call.convert assignable f.ins params 0 = .ok mp →
      Call assignable (some f) params = .panicked := by
    intro mp hmp
    have hinv := Call.convert_invalid assignable f.ins params 0 mp hlen hnil hmp
    have hany : mp.any (fun x => decide (x = Value.invalid)) = true := by
      rw [List.any_eq_true]
      exact ⟨Value.invalid, hinv, by simp⟩
    have hcall : Value_Call f mp = .panicked := by
      unfold Value_Call
      cases f.body with
      | none => rfl
      | some body => simp [hany]
    simp [Call, hk, hlen, hmp, hcall]
  refine ⟨?_, hpanic⟩
  intro out hout
  cases hc : Call.convert assignable f.ins params 0 with
  | error err =>
    simp [Call, hk, hlen, hc] at hout
  | ok mp =>
    rw [hpanic mp hc] at hout
    cases hout

/-- C32 at the failing input: a function `func(p *int) int` that returns 1,
called with the one parameter nil. `Call` panics. -/
theorem Call_nil_param_panics_witness :
    Call (fun a b => a == b)
        (some
          { type := { kind := .Func, name := "func(*int) int" }
            data := ""
            ins := [{ kind := .Pointer, name := "*int" }]
            body := some (fun _ => .returned [.of { kind := .Int, name := "int" } "1"]) })
        [none] = .panicked :=
  (Call_nil_param_panics (fun a b => a == b)
    { type := { kind := .Func, name := "func(*int) int" }
      data := ""
      ins := [{ kind := .Pointer, name := "*int" }]
      body := some (fun _ => .returned [.of { kind := .Int, name := "int" } "1"]) }
    [none] rfl rfl (List.mem_cons_self _ _)).2 [Value.invalid] rfl

end Gobase.Osutil
